import Mathlib

/-!
Verification of the Sia consensus engine (`src/consensus/blocks.go`).

This file gives a shallow embedding of the consensus code in
`src/consensus/blocks.go` and proves/refutes the frozen claims about it.
Conventions of the embedding:

* Go maps become functions into `Option`; a Go map read of a missing key
  that Go would turn into the zero value is modelled with `Option.getD`.
* Machine integers: timestamps are modelled as `Int` (seconds since epoch,
  per the spec), identifiers and 256-bit targets as `Nat`.
* `big.Rat` values are modelled by `Frac`, an exact (unreduced) fraction of
  integers; all denominators arising in the code are positive, for which
  the cross-multiplication comparison used below agrees with the rational
  order (this is proved where a claim needs it).
* Collaborator code of this repository that is not under `src/`
  (transaction semantics, hashing, serialization, accessors, constants) is
  modelled from the spec; each such definition carries a doc comment
  starting with `Modelled from the spec:`.
* `DEBUG`-only branches of the source (sanity panics and the state-hash
  assertion) are elided: the spec (§9) states they are assertions and never
  correctness-load-bearing; the model corresponds to `DEBUG = false`.
* Loops whose termination depends on the block-tree shape
  (`forkBlockchain`'s ancestor walk and rewind loop, `invalidateNode`'s
  recursion) take an explicit fuel parameter; exhausting the fuel models a
  diverging Go loop and is excluded by the hypotheses of the theorems.
-/

set_option maxRecDepth 10000

namespace Sia

/-! ## Primitive types -/

abbrev BlockID := Nat
abbrev OutputID := Nat
abbrev CoinAddress := Nat
abbrev Currency := Nat
abbrev Timestamp := Int
abbrev Hash := Nat

/-- Exact rational arithmetic, modelling Go's `math/big.Rat` as used by the
source.  Values are unreduced fractions; every denominator produced while
running the source code is positive, and comparisons below are exact for
positive denominators. -/
structure Frac where
  num : Int
  den : Int
deriving DecidableEq, Repr, Inhabited

/-- `big.Rat` multiplication. -/
def Frac.mul (a b : Frac) : Frac := ⟨a.num * b.num, a.den * b.den⟩

/-- `big.Rat` addition. -/
def Frac.add (a b : Frac) : Frac := ⟨a.num * b.den + b.num * a.den, a.den * b.den⟩

/-- `big.Rat` inversion (`new(big.Rat).Inv`). -/
def Frac.inv (a : Frac) : Frac := ⟨a.den, a.num⟩

/-- `a.Cmp b == 1`, i.e. `a > b`, by cross multiplication (exact for
positive denominators). -/
def Frac.cmpGT (a b : Frac) : Bool := decide (b.num * a.den < a.num * b.den)

/-- `a.Cmp b == -1`, i.e. `a < b`, by cross multiplication (exact for
positive denominators). -/
def Frac.cmpLT (a b : Frac) : Bool := decide (a.num * b.den < b.num * a.den)

/-- Interpretation of a `Frac` as a rational number. -/
def Frac.toRat (a : Frac) : ℚ := (a.num : ℚ) / (a.den : ℚ)

/-- An unspent output: an amount of currency locked to a spend address. -/
structure Output where
  value : Currency
  spendHash : CoinAddress
deriving DecidableEq, Repr, Inhabited

/-- Modelled from the spec: transaction contents are out of scope (§1), but
the collaborator contract (§6) requires `ApplyTransaction` to be
inverse-ready and `InvertTransaction` to exactly undo it.  The model gives a
transaction a list of spent inputs (each carrying the full output it spends,
so inversion can restore it exactly), a list of created outputs, and its
miner fees. -/
structure Transaction where
  inputs : List (OutputID × Output)
  outputs : List (OutputID × Output)
  minerFees : List Currency
deriving DecidableEq, Repr, Inhabited

/-- A block: parent id, timestamp, nonce, miner payout address, merkle root
and ordered transactions (spec §3). -/
structure Block where
  parentBlockID : BlockID
  timestamp : Timestamp
  nonce : Nat
  minerAddress : CoinAddress
  merkleRoot : Hash
  transactions : List Transaction
deriving DecidableEq, Repr, Inhabited

/-- A 256-bit target threshold, stored as its numeric value. -/
structure Target where
  val : Nat
deriving DecidableEq, Repr, Inhabited

/-- `Target.Rat()`: the 256-bit value viewed as a rational. -/
def Target.rat (t : Target) : Frac := ⟨(t.val : Int), 1⟩

/-- `Target.Inverse()`: the reciprocal of the target, i.e. one block's
work. -/
def Target.inverse (t : Target) : Frac := ⟨1, (t.val : Int)⟩

/-- Modelled from the spec: deterministic rounding of a rational back to a
256-bit threshold — "truncation toward zero of the numerator × 2²⁵⁶ /
denominator, then clamp into [1, 2²⁵⁶−1]" (§4.4; `RatToTarget` is
collaborator code not under `src/`). -/
def RatToTarget (r : Frac) : Target :=
  ⟨min (max (Int.tdiv (r.num * 2 ^ 256) r.den).toNat 1) (2 ^ 256 - 1)⟩

/-! ## Encoding and hashing (collaborators) -/

/-- Injective encoding of an integer into a natural number. -/
def encInt : Int → Nat
  | .ofNat n => 2 * n
  | .negSucc n => 2 * n + 1

/-- Injective encoding of a list of naturals into a natural number. -/
def encList (l : List Nat) : Nat := l.foldr (fun a acc => Nat.pair a acc + 1) 0

/-- Encoding of a transaction into a natural number (for hashing). -/
def Transaction.enc (t : Transaction) : Nat :=
  Nat.pair (encList (t.inputs.map fun p => Nat.pair p.1 (Nat.pair p.2.value p.2.spendHash)))
    (Nat.pair (encList (t.outputs.map fun p => Nat.pair p.1 (Nat.pair p.2.value p.2.spendHash)))
      (encList t.minerFees))

/-- Modelled from the spec: a block's identity is the cryptographic hash of
its header (§3); the hashing collaborator is not under `src/`.  The model
replaces the hash by an injective pairing of the header fields. -/
def Block.ID (b : Block) : BlockID :=
  Nat.pair b.parentBlockID (Nat.pair (encInt b.timestamp)
    (Nat.pair b.nonce (Nat.pair b.minerAddress b.merkleRoot)))

/-- Modelled from the spec: the subsidy output id is "a deterministic
derivation from the block id" (§4.6). -/
def Block.SubsidyID (b : Block) : OutputID := Nat.pair b.ID 0

/-- Modelled from the spec: the Merkle root over the block's transactions
(hashing collaborator, §4.3); modelled by the injective list encoding. -/
def TransactionMerkleRoot (ts : List Transaction) : Hash :=
  encList (ts.map Transaction.enc)

/-- `b.CheckTarget(target)`: the block id, read as a 256-bit number, must be
at most the target (spec §4.3 step 1). -/
def Block.CheckTarget (b : Block) (t : Target) : Bool := decide (b.ID ≤ t.val)

/-- Modelled from the spec: `Encode(block)` is canonical serialization used
only for the size check (§6); modelled by a deterministic size measure. -/
def Block.encodedSize (b : Block) : Nat := 6 + (b.transactions.map Transaction.enc).sum

/-! ## Diffs and consensus changes -/

/-- A single UTXO mutation: `new = true` means the output was created,
`new = false` that it was removed. -/
structure OutputDiff where
  new : Bool
  id : OutputID
  output : Output
deriving DecidableEq, Repr, Inhabited

/-- Modelled from the spec: `ApplyTransaction` returns a `TransactionDiff`,
a list of UTXO-level output diffs (§4.6). -/
structure TransactionDiff where
  outputDiffs : List OutputDiff
deriving DecidableEq, Repr, Inhabited

/-- The non-transaction ledger changes of a block (`bd.BlockChanges`). -/
structure BlockChanges where
  outputDiffs : List OutputDiff
deriving DecidableEq, Repr, Inhabited

/-- The ledger mutation produced by integrating one block. -/
structure BlockDiff where
  catalystBlock : BlockID
  transactionDiffs : List TransactionDiff
  blockChanges : BlockChanges
deriving DecidableEq, Repr, Inhabited

/-- The value delivered to subscribers after a state change (§4.9). -/
structure ConsensusChange where
  invertedBlocks : List BlockDiff
  appliedBlocks : List BlockDiff
deriving DecidableEq, Repr, Inhabited

/-! ## Block tree and state -/

/-- A node of the block tree (spec §3). `children` holds the ids of the
child nodes (the Go code stores pointers; the tree is keyed by id in
`blockMap`). -/
structure BlockNode where
  block : Block
  height : Nat
  recentTimestamps : List Timestamp
  target : Target
  depth : Target
  children : List BlockID
  blockDiff : BlockDiff
deriving DecidableEq, Repr, Inhabited

/-- Error identities surfaced by the engine (§6) plus the propagated
transaction-layer error. -/
inductive Err
  | invalidBlockKnown
  | blockKnown
  | knownOrphan
  | unknownOrphan
  | futureBlock
  | workBelowTarget
  | timestampTooEarly
  | merkleMismatch
  | blockTooLarge
  | txnInvalid
deriving DecidableEq, Repr, Inhabited

/-- The consensus state.  Fields mirror the Go `State`; `contractState` is
the opaque contract-maintenance state (spec §3) and `notifications` is the
delivery log of the subscriber bus (spec §4.9): publishing a
`ConsensusChange` appends it. -/
@[ext] structure State where
  blockRoot : BlockNode
  blockMap : BlockID → Option BlockNode
  badBlocks : BlockID → Bool
  missingParents : BlockID → Option (BlockID → Option Block)
  currentBlockID : BlockID
  currentPath : Nat → Option BlockID
  unspentOutputs : OutputID → Option Output
  contractState : Int
  notifications : List ConsensusChange

/-- Modelled from the spec: accessor (§6); the node of the canonical tip. -/
def State.currentBlockNode (s : State) : BlockNode :=
  (s.blockMap s.currentBlockID).getD default

/-- Modelled from the spec: accessor `CurrentBlock` (§6). -/
def State.CurrentBlock (s : State) : Block := s.currentBlockNode.block

/-- Modelled from the spec: accessor `Height` (§6); the height of the
canonical tip. -/
def State.Height (s : State) : Nat := s.currentBlockNode.height

/-- Modelled from the spec: accessor `Depth` (§6); the cumulative depth of
the canonical tip. -/
def State.Depth (s : State) : Target := s.currentBlockNode.depth

/-- Modelled from the spec: `current_block_weight = current_tip.target⁻¹`
(§4.4). -/
def State.CurrentBlockWeight (s : State) : Frac := s.currentBlockNode.target.inverse

/-- Modelled from the spec: accessor `Output(id)` (§6). -/
def State.Output (s : State) (id : OutputID) : Option Output := s.unspentOutputs id

/-- Modelled from the spec: accessor `BlockAtHeight(h)` (§6); the canonical
block at height `h` via `current_path` and `block_map`. -/
def State.BlockAtHeight (s : State) (h : Nat) : Option Block :=
  (s.currentPath h).bind fun id => (s.blockMap id).map BlockNode.block

/-- Modelled from the spec: publishing to the subscriber bus appends the
`ConsensusChange` to the delivery log (§4.9). -/
def State.notifySubscribers (s : State) (cc : ConsensusChange) : State :=
  { s with notifications := s.notifications ++ [cc] }

/-- Modelled from the spec: the mempool is out of scope (§1);
`CleanTransactionPool` does not touch consensus state and is modelled as the
identity. -/
def State.cleanTransactionPool (s : State) : State := s

/-! ## Constants -/

/-- `SurpassThreshold = big.NewRat(5, 100)` (src/consensus/blocks.go:25). -/
def SurpassThreshold : Frac := ⟨5, 100⟩

/-- `MedianTimestampWindow = 11` (spec §6; the constant's defining file is
not under `src/`). -/
def MedianTimestampWindow : Nat := 11

/-- Modelled from the spec: the named tuning constants of §6
(`TargetWindow`, `BlockFrequency`, `MaxAdjustmentUp`, `MaxAdjustmentDown`,
`BlockSizeLimit`, `FutureThreshold`).  Their defining file is not under
`src/`, and the spec fixes no numeric values, so the development is
parametric in them. -/
structure Constants where
  targetWindow : Nat
  blockFrequency : Int
  maxAdjustmentUp : Frac
  maxAdjustmentDown : Frac
  blockSizeLimit : Nat
  futureThreshold : Int
deriving Repr, Inhabited

/-! ## Transaction collaborators (modelled from the spec) -/

/-- Lookup of a key in an association list of outputs. -/
def lookupO (k : OutputID) : List (OutputID × Output) → Option Output
  | [] => none
  | p :: ps => if p.1 = k then some p.2 else lookupO k ps

/-- The UTXO map after applying a transaction: the spent inputs are removed
and the created outputs inserted. -/
def applyTxnUtxo (u : OutputID → Option Output) (t : Transaction) :
    OutputID → Option Output := fun k =>
  match lookupO k t.outputs with
  | some o => some o
  | none => if k ∈ t.inputs.map Prod.fst then none else u k

/-- The UTXO map after inverting a transaction: the created outputs are
removed and the spent inputs restored. -/
def invertTxnUtxo (u : OutputID → Option Output) (t : Transaction) :
    OutputID → Option Output := fun k =>
  match lookupO k t.inputs with
  | some o => some o
  | none => if k ∈ t.outputs.map Prod.fst then none else u k

/-- Modelled from the spec: `ValidateTransaction(txn)` is a pure check
against current state (§6).  In the model a transaction is valid when every
input spends an existing unspent output with exactly the recorded contents
and every created output id is fresh (so a double spend is invalid, and
apply/invert are exact inverses). -/
def State.ValidTransaction (s : State) (t : Transaction) : Option Err :=
  if (t.inputs.all fun p => decide (s.unspentOutputs p.1 = some p.2)) &&
     (t.outputs.all fun p => decide (s.unspentOutputs p.1 = none)) then none
  else some .txnInvalid

/-- Modelled from the spec: `ApplyTransaction(txn) → TransactionDiff`
mutates the UTXO set and reports every UTXO-level mutation (§6, §4.6). -/
def State.applyTransaction (s : State) (t : Transaction) : State × TransactionDiff :=
  ({ s with unspentOutputs := applyTxnUtxo s.unspentOutputs t },
   { outputDiffs :=
       t.inputs.map (fun p => { new := false, id := p.1, output := p.2 }) ++
       t.outputs.map (fun p => { new := true, id := p.1, output := p.2 }) })

/-- Modelled from the spec: `InvertTransaction(txn)` exactly undoes a prior
`ApplyTransaction` (§6). -/
def State.invertTransaction (s : State) (t : Transaction) : State × List OutputDiff :=
  ({ s with unspentOutputs := invertTxnUtxo s.unspentOutputs t },
   t.outputs.map (fun p => { new := false, id := p.1, output := p.2 }) ++
   t.inputs.map (fun p => { new := true, id := p.1, output := p.2 }))

/-- Modelled from the spec: contract maintenance is opaque to the spec (§3);
`ApplyContractMaintenance` is a per-block lifecycle step whose inverse
exactly undoes it (§6).  The model advances the opaque contract state and
produces no output diffs (and leaves the `BlockChanges` it is handed
untouched). -/
def State.applyContractMaintenance (s : State) : State × List OutputDiff :=
  ({ s with contractState := s.contractState + 1 }, [])

/-- Modelled from the spec: inverse of `ApplyContractMaintenance` (§6). -/
def State.invertContractMaintenance (s : State) : State × List OutputDiff :=
  ({ s with contractState := s.contractState - 1 }, [])

/-- Modelled from the spec: `CalculateCoinbase(height)` is a deterministic
emission schedule (§6); the model fixes a deterministic value. -/
def CalculateCoinbase (_height : Nat) : Currency := 300000

/-! ## earliestChildTimestamp (src/consensus/blocks.go:45-56) -/

/-- `BlockNode.earliestChildTimestamp()`: sort the recent timestamps
ascending and take the middle one (index `MedianTimestampWindow/2`).  The
source sorts with `sort.Ints`; sorted integer sequences are unique, so any
sort gives the same list. -/
def BlockNode.earliestChildTimestamp (bn : BlockNode) : Timestamp :=
  (List.insertionSort (· ≤ ·) bn.recentTimestamps).getD (MedianTimestampWindow / 2) 0

/-! ## Orphans and destiny (src/consensus/blocks.go:61-114) -/

/-- `State.handleOrphanBlock` (src/consensus/blocks.go:61-86): record the
block under its missing parent; always returns an error saying whether the
orphan was known.  (The `DEBUG` sanity panic is elided.) -/
def State.handleOrphanBlock (s : State) (b : Block) : State × Option Err :=
  match s.missingParents b.parentBlockID with
  | none =>
    ({ s with missingParents := fun k =>
        if k = b.parentBlockID then some (fun c => if c = b.ID then some b else none)
        else s.missingParents k },
     some .unknownOrphan)
  | some missingParent =>
    match missingParent b.ID with
    | some _ => (s, some .knownOrphan)
    | none =>
      ({ s with missingParents := fun k =>
          if k = b.parentBlockID then some (fun c => if c = b.ID then some b else missingParent c)
          else s.missingParents k },
       some .unknownOrphan)

/-- `State.checkDestiny` (src/consensus/blocks.go:92-114). -/
def State.checkDestiny (s : State) (b : Block) : State × Option Err :=
  if s.badBlocks b.ID then (s, some .invalidBlockKnown)
  else match s.blockMap b.ID with
  | some _ => (s, some .blockKnown)
  | none =>
    match s.blockMap b.parentBlockID with
    | some _ => (s, none)
    | none => s.handleOrphanBlock b

/-! ## Header validation (src/consensus/blocks.go:119-156) -/

/-- `State.validateHeader` (src/consensus/blocks.go:119-156).  `now` is the
wall clock (`time.Now().Unix()`), passed explicitly.  The deferred
re-submission goroutine for future blocks is external scheduling (spec §4.3
step 2, §9) and has no effect on consensus state. -/
def State.validateHeader (C : Constants) (now : Timestamp) (s : State)
    (parent : BlockNode) (b : Block) : State × Option Err :=
  if ¬ b.CheckTarget parent.target then (s, some .workBelowTarget)
  else if b.timestamp - now > C.futureThreshold then (s, some .futureBlock)
  else if parent.earliestChildTimestamp > b.timestamp then
    ({ s with badBlocks := fun k => if k = b.ID then true else s.badBlocks k },
     some .timestampTooEarly)
  else if b.merkleRoot ≠ TransactionMerkleRoot b.transactions then
    ({ s with badBlocks := fun k => if k = b.ID then true else s.badBlocks k },
     some .merkleMismatch)
  else (s, none)

/-! ## Difficulty and weight (src/consensus/blocks.go:160-232) -/

/-- `State.childTarget` (src/consensus/blocks.go:160-191).  The
`BlockAtHeight` panic on a missing block is modelled by a default (the
theorems carry the hypothesis that the lookup succeeds). -/
def State.childTarget (C : Constants) (s : State) (parentNode newNode : BlockNode) : Target :=
  let tp : Timestamp × Timestamp :=
    if newNode.height < C.targetWindow then
      (newNode.block.timestamp - s.blockRoot.block.timestamp,
       C.blockFrequency * (newNode.height : Int))
    else
      ((newNode.block.timestamp -
        ((s.BlockAtHeight (newNode.height - C.targetWindow)).getD default).timestamp),
       C.blockFrequency * (C.targetWindow : Int))
  let targetAdjustment : Frac := ⟨tp.1, tp.2⟩
  let targetAdjustment :=
    if targetAdjustment.cmpGT C.maxAdjustmentUp then C.maxAdjustmentUp
    else if targetAdjustment.cmpLT C.maxAdjustmentDown then C.maxAdjustmentDown
    else targetAdjustment
  RatToTarget (parentNode.target.rat.mul targetAdjustment)

/-- `State.childDepth` (src/consensus/blocks.go:196-199):
`(1/parentTarget + 1/parentDepth)⁻¹`. -/
def State.childDepth (_s : State) (parentNode : BlockNode) : Target :=
  RatToTarget (Frac.inv (parentNode.target.inverse.add parentNode.depth.inverse))

/-- `State.heavierFork` (src/consensus/blocks.go:226-232): the candidate
wins iff its cumulative work exceeds the tip's plus 5% of one block's
work. -/
def State.heavierFork (s : State) (newNode : BlockNode) : Bool :=
  let threshold := s.CurrentBlockWeight.mul SurpassThreshold
  let currentCumDiff := s.Depth.inverse
  let requiredCumDiff := currentCumDiff.add threshold
  let newNodeCumDiff := newNode.depth.inverse
  newNodeCumDiff.cmpGT requiredCumDiff

/-! ## Tree insertion (src/consensus/blocks.go:203-222) -/

/-- `State.addBlockToTree` (src/consensus/blocks.go:203-222): create the
child node (shifting the timestamp window), compute its target and depth,
record it in `blockMap` and append it to the parent's children. -/
def State.addBlockToTree (C : Constants) (s : State) (parentNode : BlockNode) (b : Block) :
    State × BlockNode :=
  let newNode0 : BlockNode :=
    { block := b
      height := parentNode.height + 1
      recentTimestamps := parentNode.recentTimestamps.drop 1 ++ [b.timestamp]
      target := default
      depth := default
      children := []
      blockDiff := default }
  let newNode := { newNode0 with
    target := s.childTarget C parentNode newNode0
    depth := s.childDepth parentNode }
  let s1 := { s with blockMap := fun k => if k = b.ID then some newNode else s.blockMap k }
  let s2 := { s1 with blockMap := fun k =>
    if k = parentNode.block.ID then
      (match s1.blockMap k with
       | some n => some { n with children := n.children ++ [b.ID] }
       | none => none)
    else (s1.blockMap k) }
  (s2, newNode)

/-! ## Ledger mutator (src/consensus/blocks.go:236-325) -/

/-- `State.invertRecentBlock` (src/consensus/blocks.go:236-265): delete the
subsidy output, invert contract maintenance, invert each transaction of the
current block in reverse order, delete the tip's `currentPath` entry and
step `currentBlockID` back to the parent.  (`CurrentBlock()` is re-read by
the Go loop, but `currentBlockID` and `blockMap` do not change before the
final assignments, so it is constant through the call; the panic on a
missing subsidy output is elided — the subsidy value only feeds the diff
list.) -/
def State.invertRecentBlock (s : State) : State × List OutputDiff :=
  let b := s.CurrentBlock
  let subsidyID := b.SubsidyID
  let subsidy := (s.unspentOutputs subsidyID).getD default
  let diffs := [{ new := false, id := subsidyID, output := subsidy : OutputDiff }]
  let s1 := { s with unspentOutputs := fun k =>
    if k = subsidyID then none else s.unspentOutputs k }
  let s2 := s1.invertContractMaintenance.1
  let diffs := diffs ++ s1.invertContractMaintenance.2
  let step := fun (acc : State × List OutputDiff) (t : Transaction) =>
    ((acc.1.invertTransaction t).1, acc.2 ++ (acc.1.invertTransaction t).2)
  let su := b.transactions.reverse.foldl step (s2, diffs)
  let s5 := { su.1 with
    currentPath := fun h => if h = su.1.Height then none else su.1.currentPath h
    currentBlockID := b.parentBlockID }
  (s5, su.2)

/-- Result of `State.integrateBlock`: the new state, the accumulated output
diffs, the written-through `BlockDiff` (passed by pointer in Go) and the
error. -/
structure IntegrateResult where
  s : State
  diffs : List OutputDiff
  bd : BlockDiff
  err : Option Err

/-- The transaction loop of `integrateBlock`
(src/consensus/blocks.go:272-290), with its early `break` on a validation
failure.  Returns the state after the applied prefix, the applied
transactions in order, their `TransactionDiff`s, the concatenated output
diffs, the accumulated miner fees and the error of the failing
transaction (if any). -/
def State.integrateTxns (s : State) :
    List Transaction → State × List Transaction × List TransactionDiff ×
      List OutputDiff × Currency × Option Err
  | [] => (s, [], [], [], 0, none)
  | txn :: rest =>
    match s.ValidTransaction txn with
    | some e => (s, [], [], [], 0, some e)
    | none =>
      let transactionDiff := (s.applyTransaction txn).2
      let r := (s.applyTransaction txn).1.integrateTxns rest
      (r.1, txn :: r.2.1, transactionDiff :: r.2.2.1,
       transactionDiff.outputDiffs ++ r.2.2.2.1, txn.minerFees.sum + r.2.2.2.2.1,
       r.2.2.2.2.2)

/-- `State.integrateBlock` (src/consensus/blocks.go:269-325).  On a
transaction failure every already-applied transaction is inverted in
reverse order and the error returned (with the diffs accumulated so far —
the Go named return).  On success contract maintenance runs, the tip
variables move to the block, the miner subsidy (fees plus coinbase, the
coinbase computed at the updated height, cf. line 310) is paid out, and the
whole diff list is appended to `bd.BlockChanges.OutputDiffs`. -/
def State.integrateBlock (s : State) (b : Block) (bd0 : BlockDiff) : IntegrateResult :=
  let bd := { bd0 with catalystBlock := b.ID }
  let r := s.integrateTxns b.transactions
  let s1 := r.1
  let applied := r.2.1
  let diffs := r.2.2.2.1
  let fees := r.2.2.2.2.1
  let bd := { bd with transactionDiffs := bd.transactionDiffs ++ r.2.2.1 }
  match r.2.2.2.2.2 with
  | some e =>
    let step := fun (acc : State) (t : Transaction) => (acc.invertTransaction t).1
    let s2 := applied.reverse.foldl step s1
    { s := s2, diffs := diffs, bd := bd, err := some e }
  | none =>
    let s2 := s1.applyContractMaintenance.1
    let diffs := diffs ++ s1.applyContractMaintenance.2
    let height := ((s2.blockMap b.ID).getD default).height
    let s3 := { s2 with
      currentBlockID := b.ID
      currentPath := fun h => if h = height then some b.ID else s2.currentPath h }
    let minerSubsidy := fees + CalculateCoinbase s3.Height
    let minerSubsidyOutput : Sia.Output := { value := minerSubsidy, spendHash := b.minerAddress }
    let s4 := { s3 with unspentOutputs := fun k =>
      if k = b.SubsidyID then some minerSubsidyOutput else s3.unspentOutputs k }
    let diffs := diffs ++ [{ new := true, id := b.SubsidyID, output := minerSubsidyOutput }]
    let bd := { bd with blockChanges := ⟨bd.blockChanges.outputDiffs ++ diffs⟩ }
    { s := s4, diffs := diffs, bd := bd, err := none }

/-! ## Subtree invalidation (src/consensus/blocks.go:329-336) -/

/-- The recursion of `State.invalidateNode`, with the block map snapshotted
at entry: the Go code follows child pointers, which keep denoting the node
values from before any deletion, so lookups go through the snapshot
`m0`. -/
def invalidateNodeAux (m0 : BlockID → Option BlockNode) :
    Nat → State → BlockNode → State
  | 0, s, _ => s
  | fuel + 1, s, node =>
    let s1 := node.children.foldl
      (fun acc cid => invalidateNodeAux m0 fuel acc ((m0 cid).getD default)) s
    { s1 with
      blockMap := fun k => if k = node.block.ID then none else s1.blockMap k
      badBlocks := fun k => if k = node.block.ID then true else s1.badBlocks k }

/-- `State.invalidateNode` (src/consensus/blocks.go:329-336): recursively
delete the node and all of its descendants from `blockMap` and put them on
the bad-blocks list. -/
def State.invalidateNode (s : State) (fuel : Nat) (node : BlockNode) : State :=
  invalidateNodeAux s.blockMap fuel s node

/-- The ids a call `invalidateNodeAux m0 fuel _ node` removes, mirrored in
lockstep with its recursion. -/
def subtreeIds (m0 : BlockID → Option BlockNode) : Nat → BlockNode → List BlockID
  | 0, _ => []
  | fuel + 1, node =>
    node.children.foldl (fun acc cid => acc ++ subtreeIds m0 fuel ((m0 cid).getD default)) []
      ++ [node.block.ID]

/-! ## Reorganization (src/consensus/blocks.go:341-432) -/

/-- The common-ancestor walk of `forkBlockchain`
(src/consensus/blocks.go:349-356): ascend parent links collecting ids until
the node lies on the canonical path.  A Go map read of a missing height
yields the zero id, hence `getD 0`.  Termination depends on the tree shape,
so the walk takes fuel; `none` models a diverging loop. -/
def findParentHistory (s : State) :
    Nat → BlockNode → List BlockID → Option (List BlockID × BlockNode)
  | 0, _, _ => none
  | fuel + 1, node, acc =>
    if (s.currentPath node.height).getD 0 = node.block.ID then some (acc, node)
    else findParentHistory s fuel ((s.blockMap node.block.parentBlockID).getD default)
      (acc ++ [node.block.ID])

/-- The rewind loop of `forkBlockchain` (src/consensus/blocks.go:366-370):
pop the tip until the common ancestor is the tip, collecting the rewound
blocks, their cached `BlockDiff`s (for `cc.InvertedBlocks`) and the output
diffs. -/
def rewindLoop :
    Nat → BlockID → State → List Block → List BlockDiff → List OutputDiff →
      State × List Block × List BlockDiff × List OutputDiff
  | 0, _, s, rewound, inverted, diffs => (s, rewound, inverted, diffs)
  | fuel + 1, ancestorID, s, rewound, inverted, diffs =>
    if s.currentBlockID = ancestorID then (s, rewound, inverted, diffs)
    else
      let b := s.CurrentBlock
      let bdiff := s.currentBlockNode.blockDiff
      rewindLoop fuel ancestorID s.invertRecentBlock.1 (rewound ++ [b])
        (inverted ++ [bdiff]) (diffs ++ s.invertRecentBlock.2)

/-- `s.invertRecentBlock()` iterated (the rollback loop of
src/consensus/blocks.go:388-390), discarding the returned diffs as the
source does. -/
def invertN : Nat → State → State
  | 0, s => s
  | n + 1, s => invertN n s.invertRecentBlock.1

/-- The re-integration of the rewound blocks during rollback
(src/consensus/blocks.go:393-398).  A failing re-integration is the fatal
panic "Once-validated blocks are no longer validating"; the returned flag
is `true` exactly when the Go process would abort there. -/
def reintegrate : State → List Block → State × Bool
  | s, [] => (s, false)
  | s, b :: bs =>
    let r := s.integrateBlock b default
    match r.err with
    | some _ => (r.s, true)
    | none => reintegrate r.s bs

/-- Result of the replay loop / `forkBlockchain`. -/
structure ForkResult where
  s : State
  rewoundBlocks : List Block
  appliedBlocks : List Block
  outputDiffs : List OutputDiff
  cc : ConsensusChange
  err : Option Err
  fatal : Bool

/-- The replay loop of `forkBlockchain` (src/consensus/blocks.go:376-420),
iterating the parent history in integration order.  On an integration
failure the failing node's subtree is invalidated, the already-replayed
blocks are inverted, the rewound blocks re-integrated, and the accumulators
are reset to nil.  The integration error is assigned to a `:=`-declared
variable that shadows `forkBlockchain`'s named return `err`
(src/consensus/blocks.go:381), so the loop never sets the returned error:
the `err` field below is the named return, which stays `none`. -/
def replayLoop (fuel : Nat) :
    State → List BlockID → List Block → List Block → List OutputDiff →
      ConsensusChange → Nat → ForkResult
  | s, [], rewound, applied, diffs, cc, _ =>
    { s := s, rewoundBlocks := rewound, appliedBlocks := applied,
      outputDiffs := diffs, cc := cc, err := none, fatal := false }
  | s, id :: rest, rewound, applied, diffs, cc, validatedBlocks =>
    let appliedBlock := ((s.blockMap id).getD default).block
    let applied1 := applied ++ [appliedBlock]
    let r := s.integrateBlock appliedBlock default
    match r.err with
    | some _ =>
      let s2 := r.s.invalidateNode fuel ((r.s.blockMap id).getD default)
      let s3 := invertN validatedBlocks s2
      { s := (reintegrate s3 rewound.reverse).1, rewoundBlocks := [], appliedBlocks := [],
        outputDiffs := [], cc := cc, err := none,
        fatal := (reintegrate s3 rewound.reverse).2 }
    | none =>
      let cc1 := { cc with appliedBlocks := cc.appliedBlocks ++ [r.bd] }
      let s2 := { r.s with blockMap := fun k =>
        if k = id then
          (match r.s.blockMap k with
           | some n => some { n with blockDiff := r.bd }
           | none => none)
        else (r.s.blockMap k) }
      replayLoop fuel s2 rest rewound applied1 (diffs ++ r.diffs) cc1 (validatedBlocks + 1)

/-- `State.forkBlockchain` (src/consensus/blocks.go:341-432): walk to the
common ancestor, rewind the canonical suffix, replay the fork, clean the
transaction pool and (when blocks were applied) notify subscribers.  The
`DEBUG` state-hash snapshot/assertion is elided.  The returned `err` is the
named return of the Go function, which — because of the shadowing at
line 381 — is never assigned and is always nil. -/
def State.forkBlockchain (s : State) (fuel : Nat) (newNode : BlockNode) : ForkResult :=
  match findParentHistory s fuel newNode [] with
  | none =>
    { s := s, rewoundBlocks := [], appliedBlocks := [], outputDiffs := [],
      cc := default, err := none, fatal := false }
  | some (parentHistory, ancestorNode) =>
    let rw := rewindLoop fuel ancestorNode.block.ID s [] [] []
    let cc0 : ConsensusChange := { invertedBlocks := rw.2.2.1, appliedBlocks := [] }
    let fr := replayLoop fuel rw.1 parentHistory.reverse rw.2.1 [] rw.2.2.2 cc0 0
    let s2 := fr.s.cleanTransactionPool
    let s3 := if fr.appliedBlocks ≠ [] then s2.notifySubscribers fr.cc else s2
    { fr with s := s3 }

/-! ## AcceptBlock (src/consensus/blocks.go:436-482) -/

/-- Result of `State.AcceptBlock`. -/
structure AcceptResult where
  s : State
  rewoundBlocks : List Block
  appliedBlocks : List Block
  outputDiffs : List OutputDiff
  err : Option Err
  fatal : Bool

/-- `State.AcceptBlock` (src/consensus/blocks.go:436-482): destiny check,
header validation, size check, tree insertion, optional fork, then the
unconditional empty `ConsensusChange` notification.  `now` is the wall
clock.  The `DEBUG` `CurrentPathCheck` is elided.  `fatal` records whether
the rollback panic inside `forkBlockchain` fired (in which case the Go
process aborts and nothing after it runs). -/
def State.AcceptBlock (C : Constants) (fuel : Nat) (now : Timestamp) (s : State)
    (b : Block) : AcceptResult :=
  let s0 := (s.checkDestiny b).1
  match (s.checkDestiny b).2 with
  | some e => { s := s0, rewoundBlocks := [], appliedBlocks := [], outputDiffs := [],
                err := some e, fatal := false }
  | none =>
    let parentNode := (s0.blockMap b.parentBlockID).getD default
    let s1 := (s0.validateHeader C now parentNode b).1
    match (s0.validateHeader C now parentNode b).2 with
    | some e => { s := s1, rewoundBlocks := [], appliedBlocks := [], outputDiffs := [],
                  err := some e, fatal := false }
    | none =>
      if b.encodedSize > C.blockSizeLimit then
        { s := s1, rewoundBlocks := [], appliedBlocks := [], outputDiffs := [],
          err := some .blockTooLarge, fatal := false }
      else
        let s2 := (s1.addBlockToTree C parentNode b).1
        let newBlockNode := (s1.addBlockToTree C parentNode b).2
        if s2.heavierFork newBlockNode then
          let fr := s2.forkBlockchain fuel newBlockNode
          if fr.fatal then
            { s := fr.s, rewoundBlocks := fr.rewoundBlocks,
              appliedBlocks := fr.appliedBlocks, outputDiffs := fr.outputDiffs,
              err := fr.err, fatal := true }
          else match fr.err with
          | some e =>
            { s := fr.s, rewoundBlocks := fr.rewoundBlocks,
              appliedBlocks := fr.appliedBlocks, outputDiffs := fr.outputDiffs,
              err := some e, fatal := false }
          | none =>
            let s3 := fr.s.notifySubscribers default
            { s := s3, rewoundBlocks := fr.rewoundBlocks,
              appliedBlocks := fr.appliedBlocks, outputDiffs := fr.outputDiffs,
              err := none, fatal := false }
        else
          let s3 := s2.notifySubscribers default
          { s := s3, rewoundBlocks := [], appliedBlocks := [], outputDiffs := [],
            err := none, fatal := false }

/-! ## The retargeting rule as the specification words it -/

/-- The retargeting rule exactly as the specification states it (§4.4):
`window = min(child.height, TargetWindow)`, the anchor is the ancestor at
height `child.height − window` (genesis when `child.height < TargetWindow`),
`adj = time_passed / expected_passed` clamped into
`[MaxAdjustmentDown, MaxAdjustmentUp]`, and the child target is
`parent.target × adj` under the deterministic rounding.  Stated separately
from `State.childTarget` (translated from the source) so the two can be
compared. -/
def childTargetSpec (C : Constants) (genesisTimestamp anchorTimestamp : Timestamp)
    (parentTarget : Target) (childHeight : Nat) (childTimestamp : Timestamp) : Target :=
  let window := min childHeight C.targetWindow
  let aTs := if childHeight < C.targetWindow then genesisTimestamp else anchorTimestamp
  let timePassed : Int := childTimestamp - aTs
  let expectedPassed : Int := C.blockFrequency * (window : Int)
  let adj : Frac := ⟨timePassed, expectedPassed⟩
  let adj := if adj.cmpGT C.maxAdjustmentUp then C.maxAdjustmentUp
    else if adj.cmpLT C.maxAdjustmentDown then C.maxAdjustmentDown
    else adj
  RatToTarget (parentTarget.rat.mul adj)

/-! ## Concrete example data used by the witnesses and counterexamples -/

/-- A concrete example state for `integrateBlock`: one unspent output with
id 1. -/
def exC3State : State :=
  { blockRoot := default
    blockMap := fun _ => none
    badBlocks := fun _ => false
    missingParents := fun _ => none
    currentBlockID := 0
    currentPath := fun _ => none
    unspentOutputs := fun k => if k = 1 then some ⟨50, 7⟩ else none
    contractState := 0
    notifications := [] }

/-- A concrete block whose first transaction validly spends output 1 and
whose second transaction spends output 1 again (a double spend, so
`ValidateTransaction` fails on it). -/
def exC3Block : Block :=
  { parentBlockID := 0, timestamp := 0, nonce := 0, minerAddress := 0, merkleRoot := 0,
    transactions :=
      [{ inputs := [(1, ⟨50, 7⟩)], outputs := [(2, ⟨50, 8⟩)], minerFees := [] },
       { inputs := [(1, ⟨50, 7⟩)], outputs := [], minerFees := [] }] }

/-- A concrete block with a single valid transaction spending output 1
(integrates successfully on `exC3State`). -/
def exC10Block : Block :=
  { parentBlockID := 0, timestamp := 0, nonce := 1, minerAddress := 9, merkleRoot := 0,
    transactions :=
      [{ inputs := [(1, ⟨50, 7⟩)], outputs := [(2, ⟨47, 8⟩)], minerFees := [3] }] }

/-- A concrete tip node for the heavier-fork witness. -/
def exC4Tip : BlockNode :=
  { block := default, height := 1, recentTimestamps := List.replicate 11 0,
    target := ⟨4⟩, depth := ⟨4⟩, children := [], blockDiff := default }

/-- A concrete heavier candidate node (depth 2 against the tip's 4). -/
def exC4New : BlockNode :=
  { block := default, height := 2, recentTimestamps := List.replicate 11 0,
    target := ⟨4⟩, depth := ⟨2⟩, children := [], blockDiff := default }

/-- A concrete state whose canonical tip is `exC4Tip` (keyed at id 0). -/
def exC4State : State :=
  { blockRoot := exC4Tip
    blockMap := fun k => if k = 0 then some exC4Tip else none
    badBlocks := fun _ => false
    missingParents := fun _ => none
    currentBlockID := 0
    currentPath := fun h => if h = 1 then some 0 else none
    unspentOutputs := fun _ => none
    contractState := 0
    notifications := [] }

/-- A concrete parent node for the median-past-timestamp witness: a large
target (so the header's work check passes) and eleven zero timestamps
(median 0). -/
def exC6Parent : BlockNode :=
  { block := default, height := 1, recentTimestamps := List.replicate 11 0,
    target := ⟨2 ^ 300⟩, depth := ⟨4⟩, children := [], blockDiff := default }

/-- A concrete block timestamped before its parent's median (timestamp −1
against median 0). -/
def exC6Block : Block :=
  { parentBlockID := 0, timestamp := -1, nonce := 0, minerAddress := 0, merkleRoot := 0,
    transactions := [] }

/-- A concrete genesis block (nonzero nonce so its id is nonzero). -/
def exGBlock : Block :=
  { parentBlockID := 0, timestamp := 0, nonce := 7, minerAddress := 0, merkleRoot := 0,
    transactions := [] }

/-- A concrete genesis node with a huge child target (every block id meets
it) and depth 4. -/
def exGNode : BlockNode :=
  { block := exGBlock, height := 0, recentTimestamps := List.replicate 11 0,
    target := ⟨2 ^ 400⟩, depth := ⟨4⟩, children := [], blockDiff := default }

/-- A concrete one-node chain state: genesis is the canonical tip. -/
def exC9State : State :=
  { blockRoot := exGNode
    blockMap := fun k => if k = exGBlock.ID then some exGNode else none
    badBlocks := fun _ => false
    missingParents := fun _ => none
    currentBlockID := exGBlock.ID
    currentPath := fun h => if h = 0 then some exGBlock.ID else none
    unspentOutputs := fun _ => none
    contractState := 0
    notifications := [] }

/-- A concrete valid child of genesis: passes every header check but is far
too light to dislodge the tip (no reorg). -/
def exC9Block : Block :=
  { parentBlockID := exGBlock.ID, timestamp := 5, nonce := 0, minerAddress := 3,
    merkleRoot := TransactionMerkleRoot [], transactions := [] }

/-- Concrete constants for the AcceptBlock scenarios: a large target window
(children of genesis use the genesis anchor). -/
def exC9Constants : Constants :=
  { targetWindow := 5000, blockFrequency := 600, maxAdjustmentUp := ⟨10001, 10000⟩,
    maxAdjustmentDown := ⟨9999, 10000⟩, blockSizeLimit := 1000000,
    futureThreshold := 10800 }

/-- A transaction spending an output (id 5) that does not exist — invalid
whenever output 5 is unspent-less. -/
def exBadTxn : Transaction := { inputs := [(5, ⟨1, 1⟩)], outputs := [], minerFees := [] }

/-- The canonical block at height 1 of the failed-reorg scenario. -/
def exC2R1Block : Block :=
  { parentBlockID := exGBlock.ID, timestamp := 600, nonce := 1,
    minerAddress := 9, merkleRoot := TransactionMerkleRoot [], transactions := [] }

/-- The fork block at height 1: its transaction is invalid, so replaying it
during a reorg fails. -/
def exC2F1Block : Block :=
  { parentBlockID := exGBlock.ID, timestamp := 601, nonce := 2,
    minerAddress := 9, merkleRoot := TransactionMerkleRoot [exBadTxn],
    transactions := [exBadTxn] }

/-- The fork tip at height 2 whose acceptance triggers the losing reorg. -/
def exC2F2Block : Block :=
  { parentBlockID := exC2F1Block.ID, timestamp := 1200, nonce := 3,
    minerAddress := 9, merkleRoot := TransactionMerkleRoot [], transactions := [] }

/-- Tree node of `exC2R1Block` (heavy: depth `2^330`). -/
def exC2R1Node : BlockNode :=
  { block := exC2R1Block, height := 1,
    recentTimestamps := List.replicate 10 0 ++ [600],
    target := ⟨2 ^ 330⟩, depth := ⟨2 ^ 330⟩, children := [], blockDiff := default }

/-- Tree node of `exC2F1Block` (huge child target so the fork tip's header
check passes; light depth so the fork tip wins `heavierFork`). -/
def exC2F1Node : BlockNode :=
  { block := exC2F1Block, height := 1,
    recentTimestamps := List.replicate 10 0 ++ [601],
    target := ⟨2 ^ 1400⟩, depth := ⟨2 ^ 50⟩, children := [], blockDiff := default }

/-- Genesis node with both height-1 blocks as children. -/
def exC2GNode : BlockNode :=
  { block := exGBlock, height := 0, recentTimestamps := List.replicate 11 0,
    target := ⟨2 ^ 400⟩, depth := ⟨4⟩,
    children := [exC2R1Block.ID, exC2F1Block.ID], blockDiff := default }

/-- The failed-reorg scenario state: canonical chain genesis → R1, with the
invalid fork block F1 sitting in the tree. -/
def exC2State : State :=
  { blockRoot := exC2GNode
    blockMap := fun k =>
      if k = exGBlock.ID then some exC2GNode
      else if k = exC2R1Block.ID then some exC2R1Node
      else if k = exC2F1Block.ID then some exC2F1Node
      else none
    badBlocks := fun _ => false
    missingParents := fun _ => none
    currentBlockID := exC2R1Block.ID
    currentPath := fun h =>
      if h = 0 then some exGBlock.ID
      else if h = 1 then some exC2R1Block.ID
      else none
    unspentOutputs := fun k =>
      if k = exC2R1Block.SubsidyID then some ⟨300000, 9⟩ else none
    contractState := 0
    notifications := [] }

/-- Fork-tip node of the rollback scenario (height 2, child of the invalid
fork block). -/
def exC1F2Node : BlockNode :=
  { block := exC2F2Block, height := 2,
    recentTimestamps := List.replicate 9 0 ++ [601, 1200],
    target := ⟨2 ^ 1400⟩, depth := ⟨2 ^ 40⟩, children := [], blockDiff := default }

/-- The invalid fork block's node with the fork tip as its child, so a
failed replay invalidates the entire fork subtree. -/
def exC1F1Node : BlockNode :=
  { exC2F1Node with children := [exC2F2Block.ID] }

/-- The common-ancestor state of the rollback scenario: genesis is the
canonical tip and the whole tree (canonical R1, invalid fork F1, fork tip
F2) is already present. -/
def exC1SA : State :=
  { blockRoot := exC2GNode
    blockMap := fun k =>
      if k = exGBlock.ID then some exC2GNode
      else if k = exC2R1Block.ID then some exC2R1Node
      else if k = exC2F1Block.ID then some exC1F1Node
      else if k = exC2F2Block.ID then some exC1F2Node
      else none
    badBlocks := fun _ => false
    missingParents := fun _ => none
    currentBlockID := exGBlock.ID
    currentPath := fun h => if h = 0 then some exGBlock.ID else none
    unspentOutputs := fun _ => none
    contractState := 0
    notifications := [] }

/-! ## Agreement predicates between states -/

/-- Agreement on every field the ledger mutator (`integrateBlock`,
`invertRecentBlock` and their loops) never touches: the tree structure, the
orphan pool and the notification log. -/
def treeEq (s t : State) : Prop :=
  s.blockRoot = t.blockRoot ∧ s.blockMap = t.blockMap ∧ s.badBlocks = t.badBlocks ∧
  s.missingParents = t.missingParents ∧ s.notifications = t.notifications

/-- Agreement on every field `invalidateNode` never touches (everything but
the block map and the bad-blocks set). -/
def mapComplEq (s t : State) : Prop :=
  s.blockRoot = t.blockRoot ∧ s.missingParents = t.missingParents ∧
  s.notifications = t.notifications ∧ s.unspentOutputs = t.unspentOutputs ∧
  s.currentPath = t.currentPath ∧ s.currentBlockID = t.currentBlockID ∧
  s.contractState = t.contractState

/-- Agreement on every field the whole replay loop never touches. -/
def outerEq (s t : State) : Prop :=
  s.blockRoot = t.blockRoot ∧ s.missingParents = t.missingParents ∧
  s.notifications = t.notifications

/-- Agreement on the consensus core witnessed by `state_hash` in claim C1:
the UTXO set, the canonical path, the tip id and the contract state. -/
def ledgerEq (s t : State) : Prop :=
  s.unspentOutputs = t.unspentOutputs ∧ s.currentPath = t.currentPath ∧
  s.currentBlockID = t.currentBlockID ∧ s.contractState = t.contractState

/-! ## Chains of block integrations (the invariant I5 of the spec) -/

/-- The structural content of a tree node that the replay loop's bookkeeping
(caching a `BlockDiff` on the node) cannot change. -/
def nodeCore (n : BlockNode) : Block × Nat × List BlockID := (n.block, n.height, n.children)

/-- Sequential integration of a chain of blocks (state part only; each block
gets a fresh zero `BlockDiff`, as in the replay loop). -/
def integrateChainS (s : State) : List Block → State
  | [] => s
  | b :: bs => integrateChainS (s.integrateBlock b default).s bs

/-- The side conditions on one block integration that make it exactly
invertible: the block is in the tree, it extends the current tip, its
height slot on the canonical path is free, and its subsidy output id is
fresh (unused and untouched by its own transactions).  These are the
per-block content of invariants I1–I5 of the spec. -/
def blockOK (s : State) (b : Block) : Prop :=
  (s.blockMap b.ID).map BlockNode.block = some b ∧
  b.parentBlockID = s.currentBlockID ∧
  s.currentPath ((s.blockMap b.ID).getD default).height = none ∧
  s.unspentOutputs b.SubsidyID = none ∧
  ∀ t ∈ b.transactions, b.SubsidyID ∉ t.inputs.map Prod.fst ∧
    b.SubsidyID ∉ t.outputs.map Prod.fst

/-- A chain of blocks that integrates successfully from `s`, each step
satisfying the invertibility side conditions. -/
def chainOK (s : State) : List Block → Prop
  | [] => True
  | b :: bs => blockOK s b ∧ (s.integrateBlock b default).err = none ∧
      chainOK (s.integrateBlock b default).s bs

/-! ## Basic lemmas about the transaction collaborators -/

theorem lookupO_mem {k : OutputID} {l : List (OutputID × Output)} {v : Output}
    (h : lookupO k l = some v) : (k, v) ∈ l := by
  induction l with
  | nil => simp [lookupO] at h
  | cons p ps ih =>
    by_cases hp : p.1 = k
    · simp only [lookupO, if_pos hp] at h
      obtain ⟨rfl⟩ := h
      subst hp
      simp
    · simp only [lookupO, if_neg hp] at h
      exact List.mem_cons_of_mem _ (ih h)

theorem lookupO_eq_none {k : OutputID} {l : List (OutputID × Output)} :
    lookupO k l = none ↔ k ∉ l.map Prod.fst := by
  induction l with
  | nil => simp [lookupO]
  | cons p ps ih =>
    by_cases hp : p.1 = k
    · simp [lookupO, hp]
    · simp [lookupO, hp, ih, Ne.symm hp]

/-- Unfolding of the modelled transaction-validity check. -/
theorem ValidTransaction_eq_none {s : State} {t : Transaction} :
    s.ValidTransaction t = none ↔
      (∀ p ∈ t.inputs, s.unspentOutputs p.1 = some p.2) ∧
      (∀ p ∈ t.outputs, s.unspentOutputs p.1 = none) := by
  unfold State.ValidTransaction
  split
  · rename_i h
    rw [Bool.and_eq_true, List.all_eq_true, List.all_eq_true] at h
    simp only [decide_eq_true_iff] at h
    exact iff_of_true rfl h
  · rename_i h
    rw [Bool.and_eq_true, List.all_eq_true, List.all_eq_true] at h
    simp only [decide_eq_true_iff] at h
    constructor
    · intro h'
      cases h'
    · intro h'
      exact absurd h' h

/-- `InvertTransaction` exactly undoes `ApplyTransaction` on a state where
the transaction validates. -/
theorem invert_applyTransaction {s : State} {t : Transaction}
    (h : s.ValidTransaction t = none) :
    ((s.applyTransaction t).1.invertTransaction t).1 = s := by
  rw [ValidTransaction_eq_none] at h
  obtain ⟨hin, hout⟩ := h
  unfold State.applyTransaction State.invertTransaction
  ext1
  all_goals try rfl
  funext k
  show invertTxnUtxo (applyTxnUtxo s.unspentOutputs t) t k = s.unspentOutputs k
  unfold invertTxnUtxo
  cases hl : lookupO k t.inputs with
  | some o => exact (hin _ (lookupO_mem hl)).symm
  | none =>
    simp only
    by_cases hko : k ∈ t.outputs.map Prod.fst
    · rw [if_pos hko]
      obtain ⟨p, hp, hpk⟩ := List.mem_map.mp hko
      subst hpk
      exact (hout _ hp).symm
    · rw [if_neg hko]
      unfold applyTxnUtxo
      rw [lookupO_eq_none.mpr hko]
      simp only
      rw [if_neg (lookupO_eq_none.mp hl)]

/-- `applyTransaction` and `invertTransaction` only touch the UTXO set. -/
theorem applyTransaction_frame (s : State) (t : Transaction) :
    (s.applyTransaction t).1 = { s with unspentOutputs := ((s.applyTransaction t).1).unspentOutputs } := by
  rfl

theorem invertTransaction_frame (s : State) (t : Transaction) :
    (s.invertTransaction t).1 = { s with unspentOutputs := ((s.invertTransaction t).1).unspentOutputs } := by
  rfl

/-! ## The transaction loop and its rollback -/

/-- Characterization of the transaction loop: the inversion of the applied
prefix in reverse order restores the state exactly; the accumulated diffs
are the concatenation of the applied transactions' diff lists; on success
every transaction was applied. -/
theorem integrateTxns_spec (ts : List Transaction) (s : State) :
    (s.integrateTxns ts).2.1.reverse.foldl
        (fun (acc : State) (t : Transaction) => (acc.invertTransaction t).1)
        (s.integrateTxns ts).1 = s ∧
    (s.integrateTxns ts).2.2.2.1 =
      ((s.integrateTxns ts).2.2.1.map TransactionDiff.outputDiffs).flatten ∧
    ((s.integrateTxns ts).2.2.2.2.2 = none → (s.integrateTxns ts).2.1 = ts) := by
  induction ts generalizing s with
  | nil => exact ⟨rfl, rfl, fun _ => rfl⟩
  | cons txn rest ih =>
    unfold State.integrateTxns
    cases hv : s.ValidTransaction txn with
    | some e => exact ⟨rfl, rfl, by simp⟩
    | none =>
      simp only
      obtain ⟨ih1, ih2, ih3⟩ := ih (s.applyTransaction txn).1
      refine ⟨?_, ?_, ?_⟩
      · simp only [List.reverse_cons, List.foldl_append, ih1, List.foldl_cons,
          List.foldl_nil]
        exact invert_applyTransaction hv
      · simp only [List.map_cons, List.flatten_cons, ih2]
      · intro he
        rw [ih3 he]

/-! ## Frame lemmas: which state fields each operation can touch -/

theorem invertFold_state_eq (l : List Transaction) (s : State) :
    l.foldl (fun (acc : State) (t : Transaction) => (acc.invertTransaction t).1) s =
      { s with unspentOutputs :=
          (l.foldl (fun (acc : State) (t : Transaction) =>
            (acc.invertTransaction t).1) s).unspentOutputs } := by
  induction l generalizing s with
  | nil => rfl
  | cons t ts ih => exact (ih _).trans rfl

theorem integrateTxns_state_eq (ts : List Transaction) (s : State) :
    (s.integrateTxns ts).1 =
      { s with unspentOutputs := (s.integrateTxns ts).1.unspentOutputs } := by
  induction ts generalizing s with
  | nil => rfl
  | cons txn rest ih =>
    unfold State.integrateTxns
    cases hv : s.ValidTransaction txn with
    | some e => rfl
    | none => exact (ih _).trans rfl

/-- `integrateBlock` can touch only the UTXO set, the canonical path, the
tip id and the contract state. -/
theorem integrateBlock_state_eq (s : State) (b : Block) (bd : BlockDiff) :
    (s.integrateBlock b bd).s =
      { s with
        unspentOutputs := (s.integrateBlock b bd).s.unspentOutputs
        currentPath := (s.integrateBlock b bd).s.currentPath
        currentBlockID := (s.integrateBlock b bd).s.currentBlockID
        contractState := (s.integrateBlock b bd).s.contractState } := by
  simp only [State.integrateBlock]
  cases hr : (s.integrateTxns b.transactions).2.2.2.2.2 with
  | some e =>
    simp only
    rw [invertFold_state_eq, integrateTxns_state_eq ]
  | none =>
    simp only
    rw [integrateTxns_state_eq ]
    rfl

theorem treeEq_refl (s : State) : treeEq s s := ⟨rfl, rfl, rfl, rfl, rfl⟩

theorem treeEq_trans {a b c : State} (h1 : treeEq a b) (h2 : treeEq b c) : treeEq a c :=
  ⟨h1.1.trans h2.1, h1.2.1.trans h2.2.1, h1.2.2.1.trans h2.2.2.1,
   h1.2.2.2.1.trans h2.2.2.2.1, h1.2.2.2.2.trans h2.2.2.2.2⟩

theorem treeEq_outerEq {a b : State} (h : treeEq a b) : outerEq a b :=
  ⟨h.1, h.2.2.2.1, h.2.2.2.2⟩

theorem mapComplEq_outerEq {a b : State} (h : mapComplEq a b) : outerEq a b :=
  ⟨h.1, h.2.1, h.2.2.1⟩

theorem outerEq_trans {a b c : State} (h1 : outerEq a b) (h2 : outerEq b c) : outerEq a c :=
  ⟨h1.1.trans h2.1, h1.2.1.trans h2.2.1, h1.2.2.trans h2.2.2⟩

theorem invertFold_treeEq (l : List Transaction) (s : State) :
    treeEq (l.foldl (fun (acc : State) (t : Transaction) =>
      (acc.invertTransaction t).1) s) s := by
  induction l generalizing s with
  | nil => exact treeEq_refl s
  | cons t ts ih => exact treeEq_trans (ih _) ⟨rfl, rfl, rfl, rfl, rfl⟩

theorem integrateTxns_treeEq (ts : List Transaction) (s : State) :
    treeEq (s.integrateTxns ts).1 s := by
  induction ts generalizing s with
  | nil => exact treeEq_refl s
  | cons txn rest ih =>
    unfold State.integrateTxns
    cases hv : s.ValidTransaction txn with
    | some e => exact treeEq_refl s
    | none => exact treeEq_trans (ih _) ⟨rfl, rfl, rfl, rfl, rfl⟩

theorem integrateBlock_treeEq (s : State) (b : Block) (bd : BlockDiff) :
    treeEq (s.integrateBlock b bd).s s := by
  simp only [State.integrateBlock]
  cases hr : (s.integrateTxns b.transactions).2.2.2.2.2 with
  | some e =>
    simp only
    exact treeEq_trans (invertFold_treeEq _ _) (integrateTxns_treeEq _ _)
  | none =>
    simp only
    exact treeEq_trans ⟨rfl, rfl, rfl, rfl, rfl⟩ (integrateTxns_treeEq _ _)

theorem invertRecentBlock_treeEq (s : State) : treeEq s.invertRecentBlock.1 s := by
  have hfold : ∀ (l : List Transaction) (p : State × List OutputDiff),
      treeEq (l.foldl (fun (acc : State × List OutputDiff) (t : Transaction) =>
        ((acc.1.invertTransaction t).1, acc.2 ++ (acc.1.invertTransaction t).2)) p).1 p.1 := by
    intro l
    induction l with
    | nil => intro p; exact treeEq_refl _
    | cons t ts ih => intro p; exact treeEq_trans (ih _) ⟨rfl, rfl, rfl, rfl, rfl⟩
  unfold State.invertRecentBlock
  simp only
  exact treeEq_trans (treeEq_trans ⟨rfl, rfl, rfl, rfl, rfl⟩ (hfold _ _))
    ⟨rfl, rfl, rfl, rfl, rfl⟩

theorem invertN_treeEq (n : Nat) (s : State) : treeEq (invertN n s) s := by
  induction n generalizing s with
  | zero => exact treeEq_refl s
  | succ n ih =>
    exact treeEq_trans (ih s.invertRecentBlock.1) (invertRecentBlock_treeEq s)

theorem reintegrate_treeEq (l : List Block) (s : State) :
    treeEq (reintegrate s l).1 s := by
  induction l generalizing s with
  | nil => exact treeEq_refl s
  | cons b bs ih =>
    simp only [reintegrate]
    cases hr : (s.integrateBlock b default).err with
    | some e => exact integrateBlock_treeEq s b default
    | none => exact treeEq_trans (ih _) (integrateBlock_treeEq s b default)

theorem rewindLoop_treeEq (fuel : Nat) (anc : BlockID) (s : State)
    (rw0 : List Block) (inv0 : List BlockDiff) (ds0 : List OutputDiff) :
    treeEq (rewindLoop fuel anc s rw0 inv0 ds0).1 s := by
  induction fuel generalizing s rw0 inv0 ds0 with
  | zero => exact treeEq_refl s
  | succ fuel ih =>
    unfold rewindLoop
    by_cases hc : s.currentBlockID = anc
    · rw [if_pos hc]
      exact treeEq_refl s
    · rw [if_neg hc]
      exact treeEq_trans (ih _ _ _ _) (invertRecentBlock_treeEq s)

theorem invalidateNodeAux_mapComplEq (m0 : BlockID → Option BlockNode) (fuel : Nat)
    (s : State) (node : BlockNode) :
    mapComplEq (invalidateNodeAux m0 fuel s node) s := by
  induction fuel generalizing s node with
  | zero => exact ⟨rfl, rfl, rfl, rfl, rfl, rfl, rfl⟩
  | succ fuel ih =>
    unfold invalidateNodeAux
    simp only
    have hfold : ∀ (l : List BlockID) (s' : State),
        mapComplEq (l.foldl (fun acc cid =>
          invalidateNodeAux m0 fuel acc ((m0 cid).getD default)) s') s' := by
      intro l
      induction l with
      | nil => intro s'; exact ⟨rfl, rfl, rfl, rfl, rfl, rfl, rfl⟩
      | cons c cs ihl =>
        intro s'
        rw [List.foldl_cons]
        refine ?_
        have h1 := ihl (invalidateNodeAux m0 fuel s' ((m0 c).getD default))
        have h2 := ih s' ((m0 c).getD default)
        exact ⟨h1.1.trans h2.1, h1.2.1.trans h2.2.1, h1.2.2.1.trans h2.2.2.1,
          h1.2.2.2.1.trans h2.2.2.2.1, h1.2.2.2.2.1.trans h2.2.2.2.2.1,
          h1.2.2.2.2.2.1.trans h2.2.2.2.2.2.1, h1.2.2.2.2.2.2.trans h2.2.2.2.2.2.2⟩
    have h := hfold node.children s
    exact ⟨h.1, h.2.1, h.2.2.1, h.2.2.2.1, h.2.2.2.2.1, h.2.2.2.2.2.1, h.2.2.2.2.2.2⟩

theorem replayLoop_outerEq (hist : List BlockID) (fuel : Nat) (s : State)
    (rw0 ap0 : List Block) (ds0 : List OutputDiff) (cc : ConsensusChange) (v : Nat) :
    outerEq (replayLoop fuel s hist rw0 ap0 ds0 cc v).s s := by
  induction hist generalizing s rw0 ap0 ds0 cc v with
  | nil => exact ⟨rfl, rfl, rfl⟩
  | cons id rest ih =>
    simp only [replayLoop]
    cases hr : (s.integrateBlock ((s.blockMap id).getD default).block default).err with
    | some e =>
      simp only
      refine outerEq_trans (treeEq_outerEq (reintegrate_treeEq _ _)) ?_
      refine outerEq_trans (treeEq_outerEq (invertN_treeEq _ _)) ?_
      refine outerEq_trans (mapComplEq_outerEq (invalidateNodeAux_mapComplEq _ _ _ _)) ?_
      exact treeEq_outerEq (integrateBlock_treeEq _ _ _)
    | none =>
      simp only
      refine outerEq_trans (ih _ _ _ _ _ _) ?_
      exact @outerEq_trans _
        (s.integrateBlock ((s.blockMap id).getD default).block default).s _
        ⟨rfl, rfl, rfl⟩ (treeEq_outerEq (integrateBlock_treeEq _ _ _))

theorem replayLoop_err_none (hist : List BlockID) (fuel : Nat) (s : State)
    (rw0 ap0 : List Block) (ds0 : List OutputDiff) (cc : ConsensusChange) (v : Nat) :
    (replayLoop fuel s hist rw0 ap0 ds0 cc v).err = none := by
  induction hist generalizing s rw0 ap0 ds0 cc v with
  | nil => rfl
  | cons id rest ih =>
    simp only [replayLoop]
    cases hr : (s.integrateBlock ((s.blockMap id).getD default).block default).err with
    | some e => rfl
    | none => exact ih _ _ _ _ _ _

/-- The named return `err` of `forkBlockchain` is never assigned (the
integration error lands in a shadowing variable, src/consensus/blocks.go:381),
so the function always reports a nil error. -/
theorem forkBlockchain_err_none (s : State) (fuel : Nat) (nn : BlockNode) :
    (s.forkBlockchain fuel nn).err = none := by
  unfold State.forkBlockchain
  cases hfp : findParentHistory s fuel nn [] with
  | none => rfl
  | some pr =>
    obtain ⟨ph, anc⟩ := pr
    simp only
    exact replayLoop_err_none _ _ _ _ _ _ _ _

theorem replayLoop_cc_growth (hist : List BlockID) (fuel : Nat) (s : State)
    (rw0 ap0 : List Block) (ds0 : List OutputDiff) (cc : ConsensusChange) (v : Nat)
    (hinv : ap0.length ≤ cc.appliedBlocks.length) :
    (replayLoop fuel s hist rw0 ap0 ds0 cc v).appliedBlocks = [] ∨
    (replayLoop fuel s hist rw0 ap0 ds0 cc v).appliedBlocks.length ≤
      (replayLoop fuel s hist rw0 ap0 ds0 cc v).cc.appliedBlocks.length := by
  induction hist generalizing s rw0 ap0 ds0 cc v with
  | nil => exact Or.inr hinv
  | cons id rest ih =>
    simp only [replayLoop]
    cases hr : (s.integrateBlock ((s.blockMap id).getD default).block default).err with
    | some e => exact Or.inl rfl
    | none =>
      refine ih _ _ _ _ _ _ ?_
      simp only [List.length_append, List.length_cons, List.length_nil]
      omega

/-- The error returned by `integrateBlock` is the error of its transaction
loop. -/
theorem integrateBlock_err_eq (s : State) (b : Block) (bd0 : BlockDiff) :
    (s.integrateBlock b bd0).err = (s.integrateTxns b.transactions).2.2.2.2.2 := by
  simp only [State.integrateBlock]
  cases hx : (s.integrateTxns b.transactions).2.2.2.2.2 <;> simp [hx]

/-! ## Characterizations of the ledger mutator -/

/-- On a transaction failure `integrateBlock` leaves the state exactly as
it was. -/
theorem integrateBlock_err_s (s : State) (b : Block) (bd0 : BlockDiff) (e : Err)
    (h : (s.integrateBlock b bd0).err = some e) :
    (s.integrateBlock b bd0).s = s := by
  obtain ⟨h1, -, -⟩ := integrateTxns_spec b.transactions s
  rw [integrateBlock_err_eq] at h
  simp only [State.integrateBlock, h]
  exact h1

/-- Closed form of the state produced by a successful `integrateBlock`. -/
theorem integrateBlock_ok_s (s : State) (b : Block) (bd : BlockDiff)
    (hok : (s.integrateBlock b bd).err = none) :
    (s.integrateBlock b bd).s =
      { s with
        unspentOutputs := fun k =>
          if k = b.SubsidyID then
            some ⟨(s.integrateTxns b.transactions).2.2.2.2.1 +
              CalculateCoinbase ((s.blockMap b.ID).getD default).height, b.minerAddress⟩
          else (s.integrateTxns b.transactions).1.unspentOutputs k
        currentPath := fun h =>
          if h = ((s.blockMap b.ID).getD default).height then some b.ID
          else s.currentPath h
        currentBlockID := b.ID
        contractState := s.contractState + 1 } := by
  have hT := integrateTxns_state_eq b.transactions s
  rw [integrateBlock_err_eq] at hok
  simp only [State.integrateBlock, hok, State.applyContractMaintenance]
  rw [hT]
  rfl

/-- The utxo set of the single-state inversion fold is the fold of
`invertTxnUtxo`. -/
theorem invertFold_utxo (l : List Transaction) (s : State) :
    (l.foldl (fun (acc : State) (t : Transaction) =>
      (acc.invertTransaction t).1) s).unspentOutputs =
    List.foldl invertTxnUtxo s.unspentOutputs l := by
  induction l generalizing s with
  | nil => rfl
  | cons t ts ih => exact ih _

/-- Closed form of the state produced by `invertRecentBlock`. -/
theorem invertRecentBlock_s (w : State) :
    w.invertRecentBlock.1 =
      { w with
        unspentOutputs := List.foldl invertTxnUtxo
          (fun k => if k = w.CurrentBlock.SubsidyID then none else w.unspentOutputs k)
          w.CurrentBlock.transactions.reverse
        currentPath := fun h => if h = w.Height then none else w.currentPath h
        currentBlockID := w.CurrentBlock.parentBlockID
        contractState := w.contractState - 1 } := by
  have hfold : ∀ (l : List Transaction) (p : State × List OutputDiff),
      (l.foldl (fun (acc : State × List OutputDiff) (t : Transaction) =>
        ((acc.1.invertTransaction t).1, acc.2 ++ (acc.1.invertTransaction t).2)) p).1 =
      { p.1 with unspentOutputs := List.foldl invertTxnUtxo p.1.unspentOutputs l } := by
    intro l
    induction l with
    | nil => intro p; rfl
    | cons t ts ih => intro p; exact (ih _).trans rfl
  unfold State.invertRecentBlock
  simp only
  rw [hfold]
  rfl

/-- The utxo set after the transaction loop is unchanged at keys no
transaction touches. -/
theorem integrateTxns_utxo_untouched (ts : List Transaction) (s : State) (k : OutputID)
    (h : ∀ t ∈ ts, k ∉ t.inputs.map Prod.fst ∧ k ∉ t.outputs.map Prod.fst) :
    (s.integrateTxns ts).1.unspentOutputs k = s.unspentOutputs k := by
  induction ts generalizing s with
  | nil => rfl
  | cons txn rest ih =>
    unfold State.integrateTxns
    cases hv : s.ValidTransaction txn with
    | some e => rfl
    | none =>
      simp only
      rw [ih _ (fun t ht => h t (List.mem_cons_of_mem _ ht))]
      show applyTxnUtxo s.unspentOutputs txn k = s.unspentOutputs k
      obtain ⟨hin, hout⟩ := h txn (List.mem_cons_self _ _)
      unfold applyTxnUtxo
      rw [lookupO_eq_none.mpr hout]
      simp only
      rw [if_neg hin]

/-- The transaction loop's error, resulting utxo set and accumulated fees
depend only on the input utxo set. -/
theorem integrateTxns_utxo_congr (ts : List Transaction) (r t : State)
    (hu : r.unspentOutputs = t.unspentOutputs) :
    (r.integrateTxns ts).2.2.2.2.2 = (t.integrateTxns ts).2.2.2.2.2 ∧
    (r.integrateTxns ts).1.unspentOutputs = (t.integrateTxns ts).1.unspentOutputs ∧
    (r.integrateTxns ts).2.2.2.2.1 = (t.integrateTxns ts).2.2.2.2.1 := by
  induction ts generalizing r t with
  | nil => exact ⟨rfl, hu, rfl⟩
  | cons txn rest ih =>
    have hv : r.ValidTransaction txn = t.ValidTransaction txn := by
      unfold State.ValidTransaction
      rw [hu]
    unfold State.integrateTxns
    rw [hv]
    cases hvt : t.ValidTransaction txn with
    | some e => exact ⟨rfl, hu, rfl⟩
    | none =>
      simp only
      have hu' : (r.applyTransaction txn).1.unspentOutputs =
          (t.applyTransaction txn).1.unspentOutputs := by
        show applyTxnUtxo r.unspentOutputs txn = applyTxnUtxo t.unspentOutputs txn
        rw [hu]
      obtain ⟨e1, e2, e3⟩ := ih _ _ hu'
      exact ⟨e1, e2, by rw [e3]⟩

/-! ## Exact inversion of one integrated block -/

/-- `invertRecentBlock` exactly undoes a successful `integrateBlock` under
the invertibility side conditions (the full state, all nine fields, is
restored). -/
theorem integrate_invert_exact (s : State) (b : Block) (n : BlockNode)
    (hnode : s.blockMap b.ID = some n) (hblock : n.block = b)
    (hparent : b.parentBlockID = s.currentBlockID)
    (hpath : s.currentPath n.height = none)
    (hsub : s.unspentOutputs b.SubsidyID = none)
    (hfresh : ∀ t ∈ b.transactions, b.SubsidyID ∉ t.inputs.map Prod.fst ∧
      b.SubsidyID ∉ t.outputs.map Prod.fst)
    (hok : (s.integrateBlock b default).err = none) :
    ((s.integrateBlock b default).s).invertRecentBlock.1 = s := by
  have hbm' : ((s.integrateBlock b default).s).blockMap = s.blockMap :=
    (integrateBlock_treeEq s b default).2.1
  have hcb : ((s.integrateBlock b default).s).currentBlockID = b.ID := by
    rw [integrateBlock_ok_s s b default hok]
  have hCB : ((s.integrateBlock b default).s).CurrentBlock = b := by
    unfold State.CurrentBlock State.currentBlockNode
    rw [hbm', hcb, hnode]
    exact hblock
  have hH : ((s.integrateBlock b default).s).Height = n.height := by
    unfold State.Height State.currentBlockNode
    rw [hbm', hcb, hnode]
    rfl
  rw [invertRecentBlock_s, hCB, hH, integrateBlock_ok_s s b default hok]
  have happlied : (s.integrateTxns b.transactions).2.1 = b.transactions :=
    (integrateTxns_spec b.transactions s).2.2
      (by rw [← integrateBlock_err_eq]; exact hok)
  have hutxofold : List.foldl invertTxnUtxo
      (s.integrateTxns b.transactions).1.unspentOutputs b.transactions.reverse =
      s.unspentOutputs := by
    have hinv := congrArg State.unspentOutputs
      (integrateTxns_spec b.transactions s).1
    rw [happlied, invertFold_utxo] at hinv
    exact hinv
  refine State.ext rfl rfl rfl rfl ?_ ?_ ?_ ?_ rfl
  · exact hparent
  · funext h
    show (if h = n.height then none else
      (if h = ((s.blockMap b.ID).getD default).height then some b.ID
        else s.currentPath h)) = s.currentPath h
    rw [hnode]
    by_cases hh : h = n.height
    · rw [if_pos hh, hh, hpath]
    · rw [if_neg hh]
      show (if h = n.height then some b.ID else s.currentPath h) = s.currentPath h
      rw [if_neg hh]
  · show List.foldl invertTxnUtxo _ b.transactions.reverse = s.unspentOutputs
    have hbase : (fun k => if k = b.SubsidyID then none else
        (if k = b.SubsidyID then
          some (⟨(s.integrateTxns b.transactions).2.2.2.2.1 +
            CalculateCoinbase ((s.blockMap b.ID).getD default).height,
            b.minerAddress⟩ : Output)
        else (s.integrateTxns b.transactions).1.unspentOutputs k)) =
        (s.integrateTxns b.transactions).1.unspentOutputs := by
      funext k
      by_cases hk : k = b.SubsidyID
      · rw [if_pos hk, hk]
        symm
        rw [integrateTxns_utxo_untouched _ _ _ hfresh]
        exact hsub
      · rw [if_neg hk, if_neg hk]
    show List.foldl invertTxnUtxo (fun k => if k = b.SubsidyID then none else
        (if k = b.SubsidyID then
          some (⟨(s.integrateTxns b.transactions).2.2.2.2.1 +
            CalculateCoinbase ((s.blockMap b.ID).getD default).height,
            b.minerAddress⟩ : Output)
        else (s.integrateTxns b.transactions).1.unspentOutputs k))
        b.transactions.reverse = s.unspentOutputs
    rw [hbase]
    exact hutxofold
  · show s.contractState + 1 - 1 = s.contractState
    omega

/-! ## Chains: appending, and the rewind loop -/

theorem integrateChainS_append (s : State) (l1 l2 : List Block) :
    integrateChainS s (l1 ++ l2) = integrateChainS (integrateChainS s l1) l2 := by
  induction l1 generalizing s with
  | nil => rfl
  | cons b bs ih => exact ih _

theorem chainOK_append (s : State) (l1 l2 : List Block) :
    chainOK s (l1 ++ l2) ↔ chainOK s l1 ∧ chainOK (integrateChainS s l1) l2 := by
  induction l1 generalizing s with
  | nil => simp [chainOK, integrateChainS]
  | cons b bs ih =>
    show blockOK s b ∧ (s.integrateBlock b default).err = none ∧
        chainOK (s.integrateBlock b default).s (bs ++ l2) ↔ _
    rw [ih]
    show _ ↔ (blockOK s b ∧ (s.integrateBlock b default).err = none ∧
        chainOK (s.integrateBlock b default).s bs) ∧
        chainOK (integrateChainS (s.integrateBlock b default).s bs) l2
    tauto

theorem integrateChainS_blockMap (s : State) (l : List Block) :
    (integrateChainS s l).blockMap = s.blockMap := by
  induction l generalizing s with
  | nil => rfl
  | cons b bs ih => exact (ih _).trans (integrateBlock_treeEq s b default).2.1

theorem integrateChainS_treeEq (s : State) (l : List Block) :
    treeEq (integrateChainS s l) s := by
  induction l generalizing s with
  | nil => exact treeEq_refl s
  | cons b bs ih => exact treeEq_trans (ih _) (integrateBlock_treeEq s b default)

/-- The rewind loop pops exactly the integrated chain, restoring the
ancestor state exactly. -/
theorem rewindLoop_chain (chain : List Block) (sA : State) (ancId : BlockID)
    (hok : chainOK sA chain)
    (hanc : sA.currentBlockID = ancId)
    (hne : ∀ b ∈ chain, b.ID ≠ ancId) :
    ∀ (fuel : Nat), chain.length + 1 ≤ fuel →
    ∀ (rw0 : List Block) (inv0 : List BlockDiff) (ds0 : List OutputDiff),
    ∃ invL dsL,
      rewindLoop fuel ancId (integrateChainS sA chain) rw0 inv0 ds0 =
        (sA, rw0 ++ chain.reverse, inv0 ++ invL, ds0 ++ dsL) := by
  induction chain using List.reverseRecOn with
  | nil =>
    intro fuel hfuel rw0 inv0 ds0
    cases fuel with
    | zero => omega
    | succ f =>
      refine ⟨[], [], ?_⟩
      show rewindLoop (f + 1) ancId sA rw0 inv0 ds0 = _
      unfold rewindLoop
      rw [if_pos hanc]
      simp
  | append_singleton bs b ih =>
    intro fuel hfuel rw0 inv0 ds0
    rw [chainOK_append] at hok
    obtain ⟨hok1, hok2⟩ := hok
    obtain ⟨hbOK, hberr, -⟩ := hok2
    obtain ⟨hnode0, hparent, hpath, hsub, hfresh⟩ := hbOK
    obtain ⟨n, hnode, hblock⟩ : ∃ n,
        (integrateChainS sA bs).blockMap b.ID = some n ∧ n.block = b := by
      cases hnb : (integrateChainS sA bs).blockMap b.ID with
      | none => rw [hnb] at hnode0; cases hnode0
      | some n =>
        rw [hnb] at hnode0
        exact ⟨n, rfl, Option.some.inj hnode0⟩
    cases fuel with
    | zero => simp at hfuel
    | succ f =>
      have hs0 : integrateChainS sA (bs ++ [b]) =
          ((integrateChainS sA bs).integrateBlock b default).s := by
        rw [integrateChainS_append]
        rfl
      have hcbid : (((integrateChainS sA bs).integrateBlock b default).s).currentBlockID =
          b.ID := by
        rw [integrateBlock_ok_s _ b default hberr]
      have hCB : (((integrateChainS sA bs).integrateBlock b default).s).CurrentBlock =
          b := by
        unfold State.CurrentBlock State.currentBlockNode
        rw [(integrateBlock_treeEq _ b default).2.1, hcbid, hnode]
        exact hblock
      have hinv := integrate_invert_exact (integrateChainS sA bs) b n hnode hblock
        hparent (by rwa [hnode] at hpath) hsub hfresh hberr
      rw [hs0]
      unfold rewindLoop
      rw [if_neg (by rw [hcbid]; exact hne b (by simp))]
      rw [hCB, hinv]
      have hfuel' : bs.length + 1 ≤ f := by
        simp only [List.length_append, List.length_cons, List.length_nil] at hfuel
        omega
      obtain ⟨invL, dsL, heq⟩ := ih hok1 (fun c hc => hne c (by simp [hc])) f hfuel'
        (rw0 ++ [b])
        (inv0 ++ [(((integrateChainS sA bs).integrateBlock b default).s).currentBlockNode.blockDiff])
        (ds0 ++ (((integrateChainS sA bs).integrateBlock b default).s).invertRecentBlock.2)
      refine ⟨[(((integrateChainS sA bs).integrateBlock b default).s).currentBlockNode.blockDiff] ++ invL,
        (((integrateChainS sA bs).integrateBlock b default).s).invertRecentBlock.2 ++ dsL,
        heq.trans ?_⟩
      rw [List.reverse_append]
      simp

/-! ## Ledger agreement and node-core agreement -/

theorem ledgerEq_refl (s : State) : ledgerEq s s := ⟨rfl, rfl, rfl, rfl⟩

theorem ledgerEq_trans {a b c : State} (h1 : ledgerEq a b) (h2 : ledgerEq b c) :
    ledgerEq a c :=
  ⟨h1.1.trans h2.1, h1.2.1.trans h2.2.1, h1.2.2.1.trans h2.2.2.1,
   h1.2.2.2.trans h2.2.2.2⟩

theorem mapComplEq_ledgerEq {a b : State} (h : mapComplEq a b) : ledgerEq a b :=
  ⟨h.2.2.2.1, h.2.2.2.2.1, h.2.2.2.2.2.1, h.2.2.2.2.2.2⟩

theorem nodeCore_block {n1 n2 : BlockNode} (h : nodeCore n1 = nodeCore n2) :
    n1.block = n2.block := congrArg Prod.fst h

theorem nodeCore_height {n1 n2 : BlockNode} (h : nodeCore n1 = nodeCore n2) :
    n1.height = n2.height := congrArg (fun p => p.2.1) h

theorem nodeCore_children {n1 n2 : BlockNode} (h : nodeCore n1 = nodeCore n2) :
    n1.children = n2.children := congrArg (fun p => p.2.2) h

theorem core_agree_getD {m1 m2 : BlockID → Option BlockNode} (k : BlockID)
    (h : (m1 k).map nodeCore = (m2 k).map nodeCore) :
    nodeCore ((m1 k).getD default) = nodeCore ((m2 k).getD default) := by
  cases h1 : m1 k with
  | none =>
    cases h2 : m2 k with
    | none => rfl
    | some n2 => rw [h1, h2] at h; simp at h
  | some n1 =>
    cases h2 : m2 k with
    | none => rw [h1, h2] at h; simp at h
    | some n2 =>
      rw [h1, h2] at h
      simp only [Option.map_some', Option.some.injEq] at h
      exact h

/-! ## Invalidation only touches the doomed subtree -/

theorem subtreeIds_congr {m1 m2 : BlockID → Option BlockNode}
    (hm : ∀ k, (m1 k).map nodeCore = (m2 k).map nodeCore) :
    ∀ (fuel : Nat) (n1 n2 : BlockNode), nodeCore n1 = nodeCore n2 →
    subtreeIds m1 fuel n1 = subtreeIds m2 fuel n2 := by
  intro fuel
  induction fuel with
  | zero => intro n1 n2 _; rfl
  | succ fuel ih =>
    intro n1 n2 hn
    simp only [subtreeIds]
    rw [nodeCore_block hn, nodeCore_children hn]
    have hfold : ∀ (l : List BlockID) (acc : List BlockID),
        List.foldl (fun a cid => a ++ subtreeIds m1 fuel ((m1 cid).getD default)) acc l =
        List.foldl (fun a cid => a ++ subtreeIds m2 fuel ((m2 cid).getD default)) acc l := by
      intro l
      induction l with
      | nil => intro acc; rfl
      | cons c cs ihl =>
        intro acc
        simp only [List.foldl_cons]
        rw [ih ((m1 c).getD default) ((m2 c).getD default) (core_agree_getD c (hm c))]
        exact ihl _
    rw [hfold]

theorem mem_subtree_foldl (m0 : BlockID → Option BlockNode) (fuel : Nat) :
    ∀ (l : List BlockID) (acc : List BlockID) (k : BlockID),
    k ∈ List.foldl (fun a cid => a ++ subtreeIds m0 fuel ((m0 cid).getD default)) acc l ↔
    k ∈ acc ∨ ∃ cid ∈ l, k ∈ subtreeIds m0 fuel ((m0 cid).getD default) := by
  intro l
  induction l with
  | nil => intro acc k; simp
  | cons c cs ih =>
    intro acc k
    rw [List.foldl_cons, ih]
    simp only [List.mem_append, List.mem_cons]
    constructor
    · rintro ((h | h) | ⟨cid, hc, hk⟩)
      · exact Or.inl h
      · exact Or.inr ⟨c, Or.inl rfl, h⟩
      · exact Or.inr ⟨cid, Or.inr hc, hk⟩
    · rintro (h | ⟨cid, (rfl | hc), hk⟩)
      · exact Or.inl (Or.inl h)
      · exact Or.inl (Or.inr hk)
      · exact Or.inr ⟨cid, hc, hk⟩

/-- Nodes outside the invalidated subtree keep their map entry and their
bad-block flag. -/
theorem invalidateNodeAux_keep (m0 : BlockID → Option BlockNode) :
    ∀ (fuel : Nat) (s : State) (node : BlockNode) (k : BlockID),
    k ∉ subtreeIds m0 fuel node →
    (invalidateNodeAux m0 fuel s node).blockMap k = s.blockMap k ∧
    (invalidateNodeAux m0 fuel s node).badBlocks k = s.badBlocks k := by
  intro fuel
  induction fuel with
  | zero => intro s node k _; exact ⟨rfl, rfl⟩
  | succ fuel ih =>
    intro s node k hk
    simp only [subtreeIds, List.mem_append, List.mem_singleton, not_or] at hk
    obtain ⟨hkf, hkid⟩ := hk
    have hnotin : ∀ cid ∈ node.children,
        k ∉ subtreeIds m0 fuel ((m0 cid).getD default) := by
      intro cid hc hmem
      exact hkf ((mem_subtree_foldl m0 fuel node.children [] k).2
        (Or.inr ⟨cid, hc, hmem⟩))
    have hfold : ∀ (l : List BlockID) (s' : State),
        (∀ cid ∈ l, k ∉ subtreeIds m0 fuel ((m0 cid).getD default)) →
        ((List.foldl (fun acc cid =>
            invalidateNodeAux m0 fuel acc ((m0 cid).getD default)) s' l).blockMap k =
          s'.blockMap k ∧
         (List.foldl (fun acc cid =>
            invalidateNodeAux m0 fuel acc ((m0 cid).getD default)) s' l).badBlocks k =
          s'.badBlocks k) := by
      intro l
      induction l with
      | nil => intro s' _; exact ⟨rfl, rfl⟩
      | cons c cs ihl =>
        intro s' hl
        rw [List.foldl_cons]
        obtain ⟨h1, h2⟩ := ihl (invalidateNodeAux m0 fuel s' ((m0 c).getD default))
          (fun cid hc => hl cid (List.mem_cons_of_mem _ hc))
        obtain ⟨h3, h4⟩ := ih s' ((m0 c).getD default) k (hl c (List.mem_cons_self _ _))
        exact ⟨h1.trans h3, h2.trans h4⟩
    simp only [invalidateNodeAux]
    constructor
    · show (if k = node.block.ID then none else _) = s.blockMap k
      rw [if_neg hkid]
      exact (hfold node.children s hnotin).1
    · show (if k = node.block.ID then true else _) = s.badBlocks k
      rw [if_neg hkid]
      exact (hfold node.children s hnotin).2

/-- The invalidated node itself is deleted from the map and marked bad. -/
theorem invalidateNodeAux_bad (m0 : BlockID → Option BlockNode) (fuel : Nat)
    (s : State) (node : BlockNode) :
    (invalidateNodeAux m0 (fuel + 1) s node).blockMap node.block.ID = none ∧
    (invalidateNodeAux m0 (fuel + 1) s node).badBlocks node.block.ID = true := by
  simp only [invalidateNodeAux]
  exact ⟨if_pos trivial, if_pos trivial⟩

/-! ## Ledger congruence of the mutators -/

/-- Two states agreeing on the ledger and on the integrated block's tree
height produce the same integration error and again ledger-equal states. -/
theorem integrateBlock_ledger_congr (b : Block) (r t : State)
    (hled : ledgerEq r t)
    (hh : ((r.blockMap b.ID).getD default).height =
      ((t.blockMap b.ID).getD default).height) :
    (r.integrateBlock b default).err = (t.integrateBlock b default).err ∧
    ledgerEq (r.integrateBlock b default).s (t.integrateBlock b default).s := by
  obtain ⟨hce, hcu, hcf⟩ := integrateTxns_utxo_congr b.transactions r t hled.1
  have herr : (r.integrateBlock b default).err = (t.integrateBlock b default).err := by
    rw [integrateBlock_err_eq, integrateBlock_err_eq, hce]
  refine ⟨herr, ?_⟩
  cases he : (t.integrateBlock b default).err with
  | some e =>
    rw [integrateBlock_err_s r b default e (herr.trans he),
        integrateBlock_err_s t b default e he]
    exact hled
  | none =>
    rw [integrateBlock_ok_s r b default (herr.trans he),
        integrateBlock_ok_s t b default he]
    refine ⟨?_, ?_, rfl, ?_⟩
    · funext k
      show (if k = b.SubsidyID then _ else (r.integrateTxns b.transactions).1.unspentOutputs k) =
        (if k = b.SubsidyID then _ else (t.integrateTxns b.transactions).1.unspentOutputs k)
      by_cases hk : k = b.SubsidyID
      · rw [if_pos hk, if_pos hk, hcf, hh]
      · rw [if_neg hk, if_neg hk, hcu]
    · funext h
      show (if h = ((r.blockMap b.ID).getD default).height then some b.ID
          else r.currentPath h) =
        (if h = ((t.blockMap b.ID).getD default).height then some b.ID
          else t.currentPath h)
      rw [hh, hled.2.1]
    · show r.contractState + 1 = t.contractState + 1
      rw [hled.2.2.2]

/-- Two states agreeing on the ledger and on the current tip produce
ledger-equal states under `invertRecentBlock`. -/
theorem invertRecentBlock_ledger_congr (r t : State)
    (hled : ledgerEq r t) (hcb : r.CurrentBlock = t.CurrentBlock)
    (hh : r.Height = t.Height) :
    ledgerEq r.invertRecentBlock.1 t.invertRecentBlock.1 := by
  rw [invertRecentBlock_s r, invertRecentBlock_s t]
  refine ⟨?_, ?_, ?_, ?_⟩
  · show List.foldl invertTxnUtxo
        (fun k => if k = r.CurrentBlock.SubsidyID then none else r.unspentOutputs k)
        r.CurrentBlock.transactions.reverse = _
    rw [hcb, hled.1]
  · funext h
    show (if h = r.Height then none else r.currentPath h) =
      (if h = t.Height then none else t.currentPath h)
    rw [hh, hled.2.1]
  · show r.CurrentBlock.parentBlockID = t.CurrentBlock.parentBlockID
    rw [hcb]
  · show r.contractState - 1 = t.contractState - 1
    rw [hled.2.2.2]

/-! ## The rollback protocol restores the ledger -/

/-- Inverting as many blocks as an integrated chain has, starting from any
state that ledger-agrees with the chain's endpoint and whose tree agrees on
the chain's nodes, lands ledger-exactly on the chain's start. -/
theorem invertN_chain (sA : State) (chain : List Block) :
    ∀ (u : State), chainOK sA chain →
    ledgerEq u (integrateChainS sA chain) →
    (∀ b ∈ chain, (u.blockMap b.ID).map nodeCore = (sA.blockMap b.ID).map nodeCore) →
    ledgerEq (invertN chain.length u) sA := by
  induction chain using List.reverseRecOn with
  | nil => intro u _ hled _; exact hled
  | append_singleton bs b ih =>
    intro u hok hled hm
    rw [chainOK_append] at hok
    obtain ⟨hok1, hok2⟩ := hok
    obtain ⟨hbOK, hberr, -⟩ := hok2
    obtain ⟨hnode0, hparent, hpath, hsubs, hfresh⟩ := hbOK
    have hbsbm : (integrateChainS sA bs).blockMap = sA.blockMap :=
      integrateChainS_blockMap _ _
    rw [hbsbm] at hnode0 hpath
    obtain ⟨n, hnode, hblock⟩ : ∃ n, sA.blockMap b.ID = some n ∧ n.block = b := by
      cases hnb : sA.blockMap b.ID with
      | none => rw [hnb] at hnode0; cases hnode0
      | some n => rw [hnb] at hnode0; exact ⟨n, rfl, Option.some.inj hnode0⟩
    have hS' : integrateChainS sA (bs ++ [b]) =
        ((integrateChainS sA bs).integrateBlock b default).s :=
      (integrateChainS_append sA bs [b]).trans rfl
    have hScb : (integrateChainS sA (bs ++ [b])).currentBlockID = b.ID := by
      rw [hS', integrateBlock_ok_s _ b default hberr]
    have hSbm : (integrateChainS sA (bs ++ [b])).blockMap = sA.blockMap :=
      integrateChainS_blockMap _ _
    have hgd := core_agree_getD b.ID (hm b (by simp))
    have hucb : u.currentBlockID = b.ID := hled.2.2.1.trans hScb
    have hCB : u.CurrentBlock = (integrateChainS sA (bs ++ [b])).CurrentBlock := by
      unfold State.CurrentBlock State.currentBlockNode
      rw [hucb, hScb, hSbm]
      exact nodeCore_block hgd
    have hHt : u.Height = (integrateChainS sA (bs ++ [b])).Height := by
      unfold State.Height State.currentBlockNode
      rw [hucb, hScb, hSbm]
      exact nodeCore_height hgd
    have hrel := invertRecentBlock_ledger_congr u (integrateChainS sA (bs ++ [b]))
      hled hCB hHt
    have hexact : (integrateChainS sA (bs ++ [b])).invertRecentBlock.1 =
        integrateChainS sA bs := by
      rw [hS']
      refine integrate_invert_exact (integrateChainS sA bs) b n
        (by rw [hbsbm]; exact hnode) hblock hparent ?_ hsubs hfresh hberr
      rw [hnode] at hpath
      exact hpath
    rw [hexact] at hrel
    have hlen : (bs ++ [b]).length = bs.length + 1 := by simp
    rw [hlen]
    show ledgerEq (invertN bs.length u.invertRecentBlock.1) sA
    refine ih u.invertRecentBlock.1 hok1 hrel ?_
    intro c hc
    rw [(invertRecentBlock_treeEq u).2.1]
    exact hm c (by simp [hc])

/-- Re-integrating a once-validated chain from any state that ledger-agrees
with the chain's start and whose tree agrees on the chain's nodes succeeds
(no rollback panic) and lands ledger-exactly on the chain's endpoint. -/
theorem reintegrate_chain :
    ∀ (chain : List Block) (u base : State), chainOK base chain →
    ledgerEq u base →
    (∀ b ∈ chain, (u.blockMap b.ID).map nodeCore = (base.blockMap b.ID).map nodeCore) →
    (reintegrate u chain).2 = false ∧
    ledgerEq (reintegrate u chain).1 (integrateChainS base chain) := by
  intro chain
  induction chain with
  | nil => intro u base _ hled _; exact ⟨rfl, hled⟩
  | cons b bs ihc =>
    intro u base hok hled hm
    obtain ⟨hbOK, hberr, hrest⟩ := hok
    have hh : ((u.blockMap b.ID).getD default).height =
        ((base.blockMap b.ID).getD default).height :=
      nodeCore_height (core_agree_getD b.ID (hm b (List.mem_cons_self _ _)))
    obtain ⟨herr, hled'⟩ := integrateBlock_ledger_congr b u base hled hh
    have huerr : (u.integrateBlock b default).err = none := herr.trans hberr
    have hstep : reintegrate u (b :: bs) =
        reintegrate (u.integrateBlock b default).s bs := by
      simp only [reintegrate]
      rw [huerr]
    rw [hstep]
    refine ihc (u.integrateBlock b default).s (base.integrateBlock b default).s hrest
      hled' ?_
    intro c hc
    rw [(integrateBlock_treeEq u b default).2.1,
        (integrateBlock_treeEq base b default).2.1]
    exact hm c (List.mem_cons_of_mem _ hc)

/-- The replay loop of `forkBlockchain` on a history whose replay fails:
the failing subtree is invalidated, the replayed prefix is inverted, the
rewound chain is re-integrated, the accumulators come back empty, the error
is swallowed (shadowed named return) and the final ledger equals the
pre-fork chain's endpoint. -/
theorem replayLoop_failure (sA : State) (rewChain : List Block)
    (failB : Block) (failNode : BlockNode) (fuel : Nat) (restIds : List BlockID)
    (hrw : chainOK sA rewChain)
    (hfailnode : sA.blockMap failB.ID = some failNode)
    (hfailblock : failNode.block = failB)
    (hfuel : 1 ≤ fuel)
    (hdisjR : ∀ b ∈ rewChain, b.ID ∉ subtreeIds sA.blockMap fuel failNode) :
    ∀ (pfx done : List Block) (r : State) (ap0 : List Block)
      (ds0 : List OutputDiff) (cc : ConsensusChange),
    chainOK sA done →
    chainOK (integrateChainS sA done) pfx →
    ledgerEq r (integrateChainS sA done) →
    (∀ k, (r.blockMap k).map nodeCore = (sA.blockMap k).map nodeCore) →
    ((integrateChainS sA (done ++ pfx)).integrateBlock failB default).err ≠ none →
    (∀ b ∈ done ++ pfx, b.ID ∉ subtreeIds sA.blockMap fuel failNode) →
    (replayLoop fuel r (pfx.map Block.ID ++ failB.ID :: restIds)
        rewChain.reverse ap0 ds0 cc done.length).rewoundBlocks = [] ∧
    (replayLoop fuel r (pfx.map Block.ID ++ failB.ID :: restIds)
        rewChain.reverse ap0 ds0 cc done.length).appliedBlocks = [] ∧
    (replayLoop fuel r (pfx.map Block.ID ++ failB.ID :: restIds)
        rewChain.reverse ap0 ds0 cc done.length).outputDiffs = [] ∧
    (replayLoop fuel r (pfx.map Block.ID ++ failB.ID :: restIds)
        rewChain.reverse ap0 ds0 cc done.length).err = none ∧
    (replayLoop fuel r (pfx.map Block.ID ++ failB.ID :: restIds)
        rewChain.reverse ap0 ds0 cc done.length).fatal = false ∧
    ledgerEq (replayLoop fuel r (pfx.map Block.ID ++ failB.ID :: restIds)
        rewChain.reverse ap0 ds0 cc done.length).s (integrateChainS sA rewChain) ∧
    (replayLoop fuel r (pfx.map Block.ID ++ failB.ID :: restIds)
        rewChain.reverse ap0 ds0 cc done.length).s.blockMap failB.ID = none ∧
    (replayLoop fuel r (pfx.map Block.ID ++ failB.ID :: restIds)
        rewChain.reverse ap0 ds0 cc done.length).s.badBlocks failB.ID = true := by
  intro pfx
  induction pfx with
  | nil =>
    intro done r ap0 ds0 cc hokDone hok hled hcore hfail hdisjF
    have hcoreF := hcore failB.ID
    rw [hfailnode] at hcoreF
    obtain ⟨nF, hnF, hnFcore⟩ : ∃ nF, r.blockMap failB.ID = some nF ∧
        nodeCore nF = nodeCore failNode := by
      cases hx : r.blockMap failB.ID with
      | none => rw [hx] at hcoreF; cases hcoreF
      | some nF => rw [hx] at hcoreF; exact ⟨nF, rfl, Option.some.inj hcoreF⟩
    have happB : ((r.blockMap failB.ID).getD default).block = failB := by
      rw [hnF]
      show nF.block = failB
      rw [nodeCore_block hnFcore, hfailblock]
    have hh : ((r.blockMap failB.ID).getD default).height =
        (((integrateChainS sA done).blockMap failB.ID).getD default).height := by
      rw [integrateChainS_blockMap]
      exact nodeCore_height (core_agree_getD failB.ID (hcore failB.ID))
    obtain ⟨herr, -⟩ :=
      integrateBlock_ledger_congr failB r (integrateChainS sA done) hled hh
    have hfail' : ((integrateChainS sA done).integrateBlock failB default).err ≠ none := by
      rw [List.append_nil] at hfail
      exact hfail
    obtain ⟨e, he⟩ : ∃ e,
        ((integrateChainS sA done).integrateBlock failB default).err = some e := by
      cases hx : ((integrateChainS sA done).integrateBlock failB default).err with
      | none => exact absurd hx hfail'
      | some e => exact ⟨e, rfl⟩
    have hrerr : (r.integrateBlock failB default).err = some e := herr.trans he
    have hrs : (r.integrateBlock failB default).s = r :=
      integrateBlock_err_s r failB default e hrerr
    have hgd : ((r.blockMap failB.ID).getD default) = nF := by rw [hnF]; rfl
    have hsubeq : subtreeIds r.blockMap fuel nF = subtreeIds sA.blockMap fuel failNode :=
      subtreeIds_congr hcore fuel nF failNode hnFcore
    obtain ⟨f, hf⟩ : ∃ f, fuel = f + 1 := ⟨fuel - 1, by omega⟩
    have hnFid : nF.block.ID = failB.ID := by rw [nodeCore_block hnFcore, hfailblock]
    have hS2keep : ∀ k, k ∉ subtreeIds sA.blockMap fuel failNode →
        (invalidateNodeAux r.blockMap fuel r nF).blockMap k = r.blockMap k ∧
        (invalidateNodeAux r.blockMap fuel r nF).badBlocks k = r.badBlocks k := by
      intro k hk
      refine invalidateNodeAux_keep r.blockMap fuel r nF k ?_
      rw [hsubeq]
      exact hk
    have hS2bad : (invalidateNodeAux r.blockMap fuel r nF).blockMap failB.ID = none ∧
        (invalidateNodeAux r.blockMap fuel r nF).badBlocks failB.ID = true := by
      rw [hf]
      have hb := invalidateNodeAux_bad r.blockMap f r nF
      rw [hnFid] at hb
      exact hb
    have hS2led : ledgerEq (invalidateNodeAux r.blockMap fuel r nF)
        (integrateChainS sA done) :=
      ledgerEq_trans (mapComplEq_ledgerEq (invalidateNodeAux_mapComplEq _ _ _ _)) hled
    have hS2core : ∀ b : Block, b.ID ∉ subtreeIds sA.blockMap fuel failNode →
        ((invalidateNodeAux r.blockMap fuel r nF).blockMap b.ID).map nodeCore =
        (sA.blockMap b.ID).map nodeCore := by
      intro b hb
      rw [(hS2keep b.ID hb).1]
      exact hcore b.ID
    have hS3led : ledgerEq
        (invertN done.length (invalidateNodeAux r.blockMap fuel r nF)) sA := by
      refine invertN_chain sA done (invalidateNodeAux r.blockMap fuel r nF)
        hokDone hS2led ?_
      intro b hb
      exact hS2core b (hdisjF b (by simpa using hb))
    have hS3tree := invertN_treeEq done.length (invalidateNodeAux r.blockMap fuel r nF)
    have hreint := reintegrate_chain rewChain
      (invertN done.length (invalidateNodeAux r.blockMap fuel r nF)) sA hrw hS3led
      (fun b hb => by rw [hS3tree.2.1]; exact hS2core b (hdisjR b hb))
    simp only [List.map_nil, List.nil_append, replayLoop]
    rw [happB, hrerr, hrs, hgd]
    simp only [State.invalidateNode]
    refine ⟨trivial, trivial, trivial, trivial, ?_, ?_, ?_, ?_⟩
    · show (reintegrate (invertN done.length (invalidateNodeAux r.blockMap fuel r nF))
        rewChain.reverse.reverse).2 = false
      rw [List.reverse_reverse]
      exact hreint.1
    · show ledgerEq (reintegrate (invertN done.length
        (invalidateNodeAux r.blockMap fuel r nF)) rewChain.reverse.reverse).1
        (integrateChainS sA rewChain)
      rw [List.reverse_reverse]
      exact hreint.2
    · show (reintegrate (invertN done.length
        (invalidateNodeAux r.blockMap fuel r nF))
        rewChain.reverse.reverse).1.blockMap failB.ID = none
      rw [List.reverse_reverse,
        (reintegrate_treeEq rewChain
          (invertN done.length (invalidateNodeAux r.blockMap fuel r nF))).2.1,
        hS3tree.2.1]
      exact hS2bad.1
    · show (reintegrate (invertN done.length
        (invalidateNodeAux r.blockMap fuel r nF))
        rewChain.reverse.reverse).1.badBlocks failB.ID = true
      rw [List.reverse_reverse,
        (reintegrate_treeEq rewChain
          (invertN done.length (invalidateNodeAux r.blockMap fuel r nF))).2.2.1,
        hS3tree.2.2.1]
      exact hS2bad.2
  | cons c cs ih =>
    intro done r ap0 ds0 cc hokDone hok hled hcore hfail hdisjF
    have hbOK : blockOK (integrateChainS sA done) c := hok.1
    have hcerr : ((integrateChainS sA done).integrateBlock c default).err = none :=
      hok.2.1
    have hrest := hok.2.2
    have hbm := integrateChainS_blockMap sA done
    have hnode0 := hbOK.1
    rw [hbm] at hnode0
    obtain ⟨nc, hnc, hncblock⟩ : ∃ nc, sA.blockMap c.ID = some nc ∧ nc.block = c := by
      cases hnb : sA.blockMap c.ID with
      | none => rw [hnb] at hnode0; cases hnode0
      | some nc => rw [hnb] at hnode0; exact ⟨nc, rfl, Option.some.inj hnode0⟩
    have hcoreC := hcore c.ID
    rw [hnc] at hcoreC
    obtain ⟨nc', hnc', hnccore⟩ : ∃ nc', r.blockMap c.ID = some nc' ∧
        nodeCore nc' = nodeCore nc := by
      cases hx : r.blockMap c.ID with
      | none => rw [hx] at hcoreC; cases hcoreC
      | some nc' => rw [hx] at hcoreC; exact ⟨nc', rfl, Option.some.inj hcoreC⟩
    have happB : ((r.blockMap c.ID).getD default).block = c := by
      rw [hnc']
      show nc'.block = c
      rw [nodeCore_block hnccore, hncblock]
    have hh : ((r.blockMap c.ID).getD default).height =
        (((integrateChainS sA done).blockMap c.ID).getD default).height := by
      rw [hbm]
      exact nodeCore_height (core_agree_getD c.ID (hcore c.ID))
    obtain ⟨herr, hled'⟩ :=
      integrateBlock_ledger_congr c r (integrateChainS sA done) hled hh
    have hrerr : (r.integrateBlock c default).err = none := herr.trans hcerr
    have hchain1 : integrateChainS sA (done ++ [c]) =
        ((integrateChainS sA done).integrateBlock c default).s :=
      (integrateChainS_append sA done [c]).trans rfl
    have hokDone' : chainOK sA (done ++ [c]) := by
      rw [chainOK_append]
      exact ⟨hokDone, hbOK, hcerr, trivial⟩
    have hok' : chainOK (integrateChainS sA (done ++ [c])) cs := by
      rw [hchain1]
      exact hrest
    have hled2 : ledgerEq
        { (r.integrateBlock c default).s with blockMap := fun k =>
            if k = c.ID then
              (match (r.integrateBlock c default).s.blockMap k with
               | some n => some { n with blockDiff := (r.integrateBlock c default).bd }
               | none => none)
            else ((r.integrateBlock c default).s.blockMap k) }
        (integrateChainS sA (done ++ [c])) := by
      rw [hchain1]
      exact hled'
    have hcore2 : ∀ k,
        (({ (r.integrateBlock c default).s with blockMap := fun k =>
            if k = c.ID then
              (match (r.integrateBlock c default).s.blockMap k with
               | some n => some { n with blockDiff := (r.integrateBlock c default).bd }
               | none => none)
            else ((r.integrateBlock c default).s.blockMap k) } : State).blockMap k).map
          nodeCore = (sA.blockMap k).map nodeCore := by
      intro k
      show (Option.map nodeCore (if k = c.ID then
          (match (r.integrateBlock c default).s.blockMap k with
           | some n => some { n with blockDiff := (r.integrateBlock c default).bd }
           | none => none)
          else ((r.integrateBlock c default).s.blockMap k))) =
        Option.map nodeCore (sA.blockMap k)
      by_cases hk : k = c.ID
      · rw [if_pos hk, hk, (integrateBlock_treeEq r c default).2.1, hnc', hnc]
        show some (nodeCore { nc' with blockDiff := (r.integrateBlock c default).bd }) =
          some (nodeCore nc)
        rw [← hnccore]
        rfl
      · rw [if_neg hk, (integrateBlock_treeEq r c default).2.1]
        exact hcore k
    have hfail2 : ((integrateChainS sA ((done ++ [c]) ++ cs)).integrateBlock failB
        default).err ≠ none := by
      rw [show (done ++ [c]) ++ cs = done ++ c :: cs by simp]
      exact hfail
    have hdisj2 : ∀ b ∈ (done ++ [c]) ++ cs,
        b.ID ∉ subtreeIds sA.blockMap fuel failNode := by
      intro b hb
      refine hdisjF b ?_
      simp only [List.mem_append, List.mem_cons, List.mem_singleton] at hb ⊢
      tauto
    have IH := ih (done ++ [c])
      { (r.integrateBlock c default).s with blockMap := fun k =>
          if k = c.ID then
            (match (r.integrateBlock c default).s.blockMap k with
             | some n => some { n with blockDiff := (r.integrateBlock c default).bd }
             | none => none)
          else ((r.integrateBlock c default).s.blockMap k) }
      (ap0 ++ [c]) (ds0 ++ (r.integrateBlock c default).diffs)
      { cc with appliedBlocks := cc.appliedBlocks ++ [(r.integrateBlock c default).bd] }
      hokDone' hok' hled2 hcore2 hfail2 hdisj2
    simp only [List.length_append, List.length_singleton] at IH
    simp only [List.map_cons, List.cons_append, replayLoop]
    rw [happB, hrerr]
    exact IH

/-- **C1** (reorg atomicity): for every state satisfying the chain
invariants (an invariant-satisfying common-ancestor state `sA` extended by
the integrated canonical chain `rewChain`) and every new tip whose replay
fails at the block `failB` during `forkBlockchain`, the rollback protocol
runs — the failing block's subtree is invalidated (its node is deleted from
the block map and marked bad), the already-replayed blocks are inverted and
the originally rewound blocks are re-integrated — the returned
rewound-block, applied-block and output-diff lists are all empty, and the
consensus state witnessed by `state_hash` (unspent outputs, current path,
current block id, contract state) equals its value before the fork
attempt. -/
theorem c1_forkBlockchain_rollback_atomic
    (sA : State) (rewChain forkPfx : List Block) (failB : Block)
    (failNode ancNode newNode : BlockNode) (hist restIds : List BlockID) (fuel : Nat)
    (hrewOK : chainOK sA rewChain)
    (hforkOK : chainOK sA forkPfx)
    (hanc : sA.currentBlockID = ancNode.block.ID)
    (hne : ∀ b ∈ rewChain, b.ID ≠ ancNode.block.ID)
    (hfuel : rewChain.length + 1 ≤ fuel)
    (hfp : findParentHistory (integrateChainS sA rewChain) fuel newNode [] =
      some (hist, ancNode))
    (hsplit : hist.reverse = forkPfx.map Block.ID ++ failB.ID :: restIds)
    (hfailnode : sA.blockMap failB.ID = some failNode)
    (hfailblock : failNode.block = failB)
    (hfail : ((integrateChainS sA forkPfx).integrateBlock failB default).err ≠ none)
    (hdisjR : ∀ b ∈ rewChain, b.ID ∉ subtreeIds sA.blockMap fuel failNode)
    (hdisjF : ∀ b ∈ forkPfx, b.ID ∉ subtreeIds sA.blockMap fuel failNode) :
    ((integrateChainS sA rewChain).forkBlockchain fuel newNode).rewoundBlocks = [] ∧
    ((integrateChainS sA rewChain).forkBlockchain fuel newNode).appliedBlocks = [] ∧
    ((integrateChainS sA rewChain).forkBlockchain fuel newNode).outputDiffs = [] ∧
    ((integrateChainS sA rewChain).forkBlockchain fuel newNode).err = none ∧
    ((integrateChainS sA rewChain).forkBlockchain fuel newNode).fatal = false ∧
    ledgerEq ((integrateChainS sA rewChain).forkBlockchain fuel newNode).s
      (integrateChainS sA rewChain) ∧
    ((integrateChainS sA rewChain).forkBlockchain fuel newNode).s.blockMap
      failB.ID = none ∧
    ((integrateChainS sA rewChain).forkBlockchain fuel newNode).s.badBlocks
      failB.ID = true := by
  obtain ⟨invL, dsL, hrew⟩ := rewindLoop_chain rewChain sA ancNode.block.ID hrewOK
    hanc hne fuel hfuel [] [] []
  simp only [List.nil_append] at hrew
  have hmaster := replayLoop_failure sA rewChain failB failNode fuel restIds hrewOK
    hfailnode hfailblock (by omega) hdisjR forkPfx [] sA []
    dsL { invertedBlocks := invL, appliedBlocks := [] }
    trivial hforkOK (ledgerEq_refl sA) (fun _ => rfl) hfail hdisjF
  simp only [State.forkBlockchain]
  rw [hfp]
  dsimp only
  rw [hrew]
  dsimp only
  rw [hsplit]
  have hnapp : ¬((replayLoop fuel sA (forkPfx.map Block.ID ++ failB.ID :: restIds)
      rewChain.reverse [] dsL
      { invertedBlocks := invL, appliedBlocks := [] } 0).appliedBlocks ≠ []) := by
    intro h
    exact h hmaster.2.1
  rw [if_neg hnapp]
  exact ⟨hmaster.1, hmaster.2.1, hmaster.2.2.1, hmaster.2.2.2.1, hmaster.2.2.2.2.1,
    hmaster.2.2.2.2.2.1, hmaster.2.2.2.2.2.2.1, hmaster.2.2.2.2.2.2.2⟩

/-- Closed witness for C1: the concrete failed-reorg scenario.  Calling
`forkBlockchain` on the canonical chain genesis → R1 with the fork tip F2
(whose parent F1 carries an invalid transaction) rolls everything back:
empty result lists, nil error, no panic, ledger restored, fork subtree
invalidated. -/
theorem c1_witness :
    ((integrateChainS exC1SA [exC2R1Block]).forkBlockchain 10
      exC1F2Node).rewoundBlocks = [] ∧
    ((integrateChainS exC1SA [exC2R1Block]).forkBlockchain 10
      exC1F2Node).appliedBlocks = [] ∧
    ((integrateChainS exC1SA [exC2R1Block]).forkBlockchain 10
      exC1F2Node).outputDiffs = [] ∧
    ((integrateChainS exC1SA [exC2R1Block]).forkBlockchain 10
      exC1F2Node).err = none ∧
    ((integrateChainS exC1SA [exC2R1Block]).forkBlockchain 10
      exC1F2Node).fatal = false ∧
    ledgerEq ((integrateChainS exC1SA [exC2R1Block]).forkBlockchain 10 exC1F2Node).s
      (integrateChainS exC1SA [exC2R1Block]) ∧
    ((integrateChainS exC1SA [exC2R1Block]).forkBlockchain 10
      exC1F2Node).s.blockMap exC2F1Block.ID = none ∧
    ((integrateChainS exC1SA [exC2R1Block]).forkBlockchain 10
      exC1F2Node).s.badBlocks exC2F1Block.ID = true :=
  c1_forkBlockchain_rollback_atomic exC1SA [exC2R1Block] [] exC2F1Block
    exC1F1Node exC2GNode exC1F2Node [exC2F2Block.ID, exC2F1Block.ID]
    [exC2F2Block.ID] 10
    ⟨⟨by decide, by decide, by decide, by decide, by decide⟩, by decide, trivial⟩
    trivial (by decide) (by decide) (by decide) (by decide) (by decide)
    (by decide) (by decide) (by decide) (by decide) (by decide)

/-! ## Claim C3: transaction-failure atomicity of integrateBlock -/

/-- C3, counterexample: `integrateBlock` does NOT return an empty diff list
when a transaction fails after another one was applied — the Go named
return `diffs` keeps the diffs of the applied prefix.  On `exC3Block` the
call fails on the second transaction yet returns the first transaction's
two output diffs. -/
theorem c3_counterexample :
    (exC3State.integrateBlock exC3Block default).err = some Err.txnInvalid ∧
    (exC3State.integrateBlock exC3Block default).diffs =
      [⟨false, 1, ⟨50, 7⟩⟩, ⟨true, 2, ⟨50, 8⟩⟩] := by
  decide

/-- C3 (amended): if a transaction of the block fails `ValidateTransaction`,
`integrateBlock` inverts every already-applied transaction in reverse order
of application and returns the failing transaction's error; the state —
`unspent_outputs`, `current_block_id`, `current_path` and all — is exactly
the pre-call state, and the returned output diffs are those accumulated
from the already-applied transactions (rather than the empty list of the
original claim; the caller discards them). -/
theorem c3_integrateBlock_txnFailure_atomic (s : State) (b : Block) (bd0 : BlockDiff)
    (e : Err) (h : (s.integrateBlock b bd0).err = some e) :
    (s.integrateBlock b bd0).s = s ∧
    (s.integrateBlock b bd0).diffs =
      (((s.integrateBlock b bd0).bd.transactionDiffs.drop
        bd0.transactionDiffs.length).map TransactionDiff.outputDiffs).flatten := by
  obtain ⟨h1, h2, _⟩ := integrateTxns_spec b.transactions s
  rw [integrateBlock_err_eq] at h
  simp only [State.integrateBlock, h]
  refine ⟨h1, ?_⟩
  rw [h2, List.drop_left]

/-- C3, witness for the amended theorem at the concrete double-spend
block. -/
theorem c3_witness :
    (exC3State.integrateBlock exC3Block default).err = some Err.txnInvalid ∧
    ((exC3State.integrateBlock exC3Block default).s = exC3State ∧
     (exC3State.integrateBlock exC3Block default).diffs =
       (((exC3State.integrateBlock exC3Block default).bd.transactionDiffs.drop
         (default : BlockDiff).transactionDiffs.length).map
           TransactionDiff.outputDiffs).flatten) :=
  ⟨by decide,
   c3_integrateBlock_txnFailure_atomic exC3State exC3Block default Err.txnInvalid (by decide)⟩

/-! ## Claim C4: the heavier-fork decision rule -/

/-- C4: `heavierFork(candidate)` returns true iff
`candidate.depth⁻¹ > current_tip.depth⁻¹ + current_tip.target⁻¹ × (5/100)`
in exact rational arithmetic; in particular a candidate whose cumulative
work ties the current tip's does not dislodge it. -/
theorem c4_heavierFork_iff (s : State) (newNode tip : BlockNode)
    (htip : s.blockMap s.currentBlockID = some tip)
    (hT : 0 < tip.target.val) (hD : 0 < tip.depth.val) (hN : 0 < newNode.depth.val) :
    (s.heavierFork newNode = true ↔
      (1 : ℚ) / (newNode.depth.val : ℚ) >
        1 / (tip.depth.val : ℚ) + 1 / (tip.target.val : ℚ) * (5 / 100)) ∧
    (newNode.depth.val = tip.depth.val → s.heavierFork newNode = false) := by
  have hfork : s.heavierFork newNode =
      decide ((1 * ((tip.target.val : Int) * 100) + 5 * (tip.depth.val : Int)) *
          (newNode.depth.val : Int) <
        1 * ((tip.depth.val : Int) * ((tip.target.val : Int) * 100))) := by
    unfold State.heavierFork State.CurrentBlockWeight State.Depth State.currentBlockNode
    rw [htip]
    rfl
  have hTQ : (0 : ℚ) < (tip.target.val : ℚ) := by exact_mod_cast hT
  have hDQ : (0 : ℚ) < (tip.depth.val : ℚ) := by exact_mod_cast hD
  have hNQ : (0 : ℚ) < (newNode.depth.val : ℚ) := by exact_mod_cast hN
  have key : s.heavierFork newNode = true ↔
      (1 : ℚ) / (newNode.depth.val : ℚ) >
        1 / (tip.depth.val : ℚ) + 1 / (tip.target.val : ℚ) * (5 / 100) := by
    rw [hfork, decide_eq_true_iff]
    simp only [one_mul]
    rw [gt_iff_lt, show (1 : ℚ) / (tip.depth.val : ℚ) +
        1 / (tip.target.val : ℚ) * (5 / 100) =
        ((tip.target.val : ℚ) * 100 + 5 * (tip.depth.val : ℚ)) /
          ((tip.depth.val : ℚ) * ((tip.target.val : ℚ) * 100)) from by
      field_simp
      try ring]
    rw [div_lt_div_iff₀ (by positivity) (by positivity), one_mul]
    exact ⟨fun h => by exact_mod_cast h, fun h => by exact_mod_cast h⟩
  refine ⟨key, fun heq => ?_⟩
  by_contra hne
  rw [Bool.not_eq_false] at hne
  have hq := key.mp hne
  rw [heq] at hq
  have hpos : (0 : ℚ) < 1 / (tip.target.val : ℚ) * (5 / 100) := by positivity
  linarith [hq]

/-- C4, witness at a concrete state: the candidate at depth 2 dislodges the
tip at depth 4. -/
theorem c4_witness :
    (exC4State.blockMap exC4State.currentBlockID = some exC4Tip ∧
     0 < exC4Tip.target.val ∧ 0 < exC4Tip.depth.val ∧ 0 < exC4New.depth.val) ∧
    ((exC4State.heavierFork exC4New = true ↔
      (1 : ℚ) / (exC4New.depth.val : ℚ) >
        1 / (exC4Tip.depth.val : ℚ) + 1 / (exC4Tip.target.val : ℚ) * (5 / 100)) ∧
     (exC4New.depth.val = exC4Tip.depth.val → exC4State.heavierFork exC4New = false)) :=
  ⟨⟨by decide, by decide, by decide, by decide⟩,
   c4_heavierFork_iff exC4State exC4New exC4Tip (by decide) (by decide) (by decide)
     (by decide)⟩

/-! ## Claim C5: child_target retargeting -/

/-- C5: `childTarget` computes exactly the specification's retargeting rule:
with `window = min(child.height, TargetWindow)`, the anchor at height
`child.height − window` (genesis when `child.height < TargetWindow`),
`expected_passed = BlockFrequency × window`,
`time_passed = child.timestamp − anchor.timestamp`, the adjustment
`time_passed / expected_passed` clamped into
`[MaxAdjustmentDown, MaxAdjustmentUp]` before multiplying it onto the
parent's target, rounded by the deterministic rounding. -/
theorem c5_childTarget_spec (C : Constants) (s : State) (parentNode newNode : BlockNode)
    (anchorTs : Timestamp)
    (hanchor : C.targetWindow ≤ newNode.height →
      (s.BlockAtHeight (newNode.height - C.targetWindow)).map Block.timestamp =
        some anchorTs) :
    s.childTarget C parentNode newNode =
      childTargetSpec C s.blockRoot.block.timestamp anchorTs parentNode.target
        newNode.height newNode.block.timestamp := by
  unfold State.childTarget childTargetSpec
  by_cases hlt : newNode.height < C.targetWindow
  · simp only [if_pos hlt, Nat.min_eq_left (le_of_lt hlt)]
  · have hge : C.targetWindow ≤ newNode.height := le_of_not_lt hlt
    have h2 := hanchor hge
    cases hb : s.BlockAtHeight (newNode.height - C.targetWindow) with
    | none => rw [hb] at h2; simp at h2
    | some ab =>
      rw [hb] at h2
      rw [Option.map_some'] at h2
      have h3 : ab.timestamp = anchorTs := Option.some.inj h2
      simp only [if_neg hlt, hb, Option.getD_some, Nat.min_eq_right hge, h3]

/-- A concrete constants record for the retargeting witness
(`TargetWindow = 1`). -/
def exC5Constants : Constants :=
  { targetWindow := 1, blockFrequency := 600, maxAdjustmentUp := ⟨10001, 10000⟩,
    maxAdjustmentDown := ⟨9999, 10000⟩, blockSizeLimit := 1000000,
    futureThreshold := 10800 }

/-- C5, witness: the retarget formulas agree at a concrete state whose
anchor lookup succeeds (`height = TargetWindow = 1`, anchor = genesis on the
path). -/
theorem c5_witness :
    (exC5Constants.targetWindow ≤ exC4New.height →
      (exC4State.BlockAtHeight (exC4New.height - exC5Constants.targetWindow)).map
        Block.timestamp = some (0 : Int)) ∧
    exC4State.childTarget exC5Constants exC4Tip exC4New =
      childTargetSpec exC5Constants exC4State.blockRoot.block.timestamp 0 exC4Tip.target
        exC4New.height exC4New.block.timestamp :=
  ⟨by decide, c5_childTarget_spec exC5Constants exC4State exC4Tip exC4New 0 (by decide)⟩

/-! ## Claim C6: the median-past timestamp rule -/

/-- C6: `earliestChildTimestamp` is the median of the parent's 11 recent
timestamps (sorted ascending, the value at index 5), and — provided the
earlier header checks pass, i.e. the id meets the target and the block is
not a future block — `validateHeader` fails with the timestamp-too-early
error, after inserting the block id into `bad_blocks`, exactly when
`block.timestamp` is strictly below that median. -/
theorem c6_validateHeader_medianPast (C : Constants) (now : Timestamp) (s : State)
    (parent : BlockNode) (b : Block)
    (hlen : parent.recentTimestamps.length = 11)
    (htarget : b.CheckTarget parent.target = true)
    (hfuture : b.timestamp - now ≤ C.futureThreshold) :
    (∃ l : List Timestamp, l.Perm parent.recentTimestamps ∧ l.Sorted (· ≤ ·) ∧
       parent.earliestChildTimestamp = l.getD 5 0) ∧
    ((s.validateHeader C now parent b).2 = some Err.timestampTooEarly ↔
       b.timestamp < parent.earliestChildTimestamp) ∧
    (b.timestamp < parent.earliestChildTimestamp →
       (s.validateHeader C now parent b).1.badBlocks b.ID = true) := by
  refine ⟨⟨List.insertionSort (· ≤ ·) parent.recentTimestamps,
    List.perm_insertionSort _ _, List.sorted_insertionSort _ _, rfl⟩, ?_⟩
  unfold State.validateHeader
  rw [if_neg (by rw [htarget]; exact fun h => h rfl)]
  rw [if_neg (not_lt.mpr hfuture)]
  by_cases hts : parent.earliestChildTimestamp > b.timestamp
  · rw [if_pos hts]
    refine ⟨iff_of_true rfl hts, fun _ => ?_⟩
    simp
  · rw [if_neg hts]
    refine ⟨?_, fun hlt => absurd hlt hts⟩
    by_cases hmr : b.merkleRoot ≠ TransactionMerkleRoot b.transactions
    · rw [if_pos hmr]
      exact iff_of_false (by simp) hts
    · rw [if_neg hmr]
      exact iff_of_false (by simp) hts

/-- C6, witness: on `exC4Tip` (eleven zero timestamps, median 0) a block
with timestamp −1 is rejected as too early; the theorem's equivalence is
instantiated there. -/
theorem c6_witness :
    (exC6Parent.recentTimestamps.length = 11 ∧
     exC6Block.CheckTarget exC6Parent.target = true ∧
     exC6Block.timestamp - 0 ≤ exC5Constants.futureThreshold) ∧
    ((∃ l : List Timestamp, l.Perm exC6Parent.recentTimestamps ∧ l.Sorted (· ≤ ·) ∧
       exC6Parent.earliestChildTimestamp = l.getD 5 0) ∧
     ((exC4State.validateHeader exC5Constants 0 exC6Parent exC6Block).2 =
        some Err.timestampTooEarly ↔
       exC6Block.timestamp < exC6Parent.earliestChildTimestamp) ∧
     (exC6Block.timestamp < exC6Parent.earliestChildTimestamp →
       (exC4State.validateHeader exC5Constants 0 exC6Parent exC6Block).1.badBlocks
         exC6Block.ID = true)) :=
  ⟨⟨by decide, by decide, by decide⟩,
   c6_validateHeader_medianPast exC5Constants 0 exC4State exC6Parent exC6Block
     (by decide) (by decide) (by decide)⟩

/-! ## Claim C7: the orphan pool -/

/-- C7: for a block whose parent is absent from `block_map`,
`handleOrphanBlock` returns `KnownOrphan` exactly when the block is already
recorded under its parent's `missing_parents` entry (leaving the state
unchanged), otherwise inserts it (creating the entry if needed) and returns
`UnknownOrphan`; the call never returns success and never returns any other
error. -/
theorem handleOrphanBlock_eq_new (s : State) (b : Block)
    (hmp : s.missingParents b.parentBlockID = none) :
    s.handleOrphanBlock b =
      ({ s with missingParents := fun k =>
          if k = b.parentBlockID then some (fun c => if c = b.ID then some b else none)
          else s.missingParents k },
       some Err.unknownOrphan) := by
  unfold State.handleOrphanBlock
  rw [hmp]

theorem handleOrphanBlock_eq_known (s : State) (b : Block)
    (mp : BlockID → Option Block) (bb : Block)
    (hmp : s.missingParents b.parentBlockID = some mp) (hc : mp b.ID = some bb) :
    s.handleOrphanBlock b = (s, some Err.knownOrphan) := by
  unfold State.handleOrphanBlock
  rw [hmp]
  simp only
  rw [hc]

theorem handleOrphanBlock_eq_insert (s : State) (b : Block)
    (mp : BlockID → Option Block)
    (hmp : s.missingParents b.parentBlockID = some mp) (hc : mp b.ID = none) :
    s.handleOrphanBlock b =
      ({ s with missingParents := fun k =>
          if k = b.parentBlockID then some (fun c => if c = b.ID then some b else mp c)
          else s.missingParents k },
       some Err.unknownOrphan) := by
  unfold State.handleOrphanBlock
  rw [hmp]
  simp only
  rw [hc]

theorem c7_handleOrphanBlock_spec (s : State) (b : Block)
    (horphan : s.blockMap b.parentBlockID = none) :
    ((s.handleOrphanBlock b).2 = some Err.knownOrphan ∨
     (s.handleOrphanBlock b).2 = some Err.unknownOrphan) ∧
    ((s.handleOrphanBlock b).2 = some Err.knownOrphan ↔
      ∃ mp, s.missingParents b.parentBlockID = some mp ∧ (mp b.ID).isSome) ∧
    ((s.handleOrphanBlock b).2 = some Err.knownOrphan → (s.handleOrphanBlock b).1 = s) ∧
    ((s.handleOrphanBlock b).2 = some Err.unknownOrphan →
      ∃ mp, (s.handleOrphanBlock b).1.missingParents b.parentBlockID = some mp ∧
        mp b.ID = some b) := by
  cases hmp : s.missingParents b.parentBlockID with
  | none =>
    rw [handleOrphanBlock_eq_new s b hmp]
    refine ⟨Or.inr rfl, ?_, ?_, ?_⟩
    · refine iff_of_false (by simp) ?_
      rintro ⟨mp, hmp', -⟩
      cases hmp'
    · intro h
      simp at h
    · intro _
      refine ⟨fun c => if c = b.ID then some b else none, by simp, by simp⟩
  | some mp =>
    cases hc : mp b.ID with
    | some bb =>
      rw [handleOrphanBlock_eq_known s b mp bb hmp hc]
      refine ⟨Or.inl rfl, iff_of_true rfl ⟨mp, rfl, by rw [hc]; rfl⟩, fun _ => rfl, ?_⟩
      intro h
      simp at h
    | none =>
      rw [handleOrphanBlock_eq_insert s b mp hmp hc]
      refine ⟨Or.inr rfl, ?_, ?_, ?_⟩
      · refine iff_of_false (by simp) ?_
        rintro ⟨mp', hmp', hsome⟩
        cases Option.some.inj hmp'
        rw [hc] at hsome
        simp at hsome
      · intro h
        simp at h
      · intro _
        refine ⟨fun c => if c = b.ID then some b else mp c, by simp, by simp⟩

/-- C7, witness: a doubly-staged orphan.  First call on an empty pool yields
`UnknownOrphan`; the instantiated theorem covers the repeat call on the
state with the orphan staged. -/
theorem c7_witness :
    (exC3State.blockMap exC3Block.parentBlockID = none) ∧
    (((exC3State.handleOrphanBlock exC3Block).2 = some Err.knownOrphan ∨
      (exC3State.handleOrphanBlock exC3Block).2 = some Err.unknownOrphan) ∧
     ((exC3State.handleOrphanBlock exC3Block).2 = some Err.knownOrphan ↔
       ∃ mp, exC3State.missingParents exC3Block.parentBlockID = some mp ∧
         (mp exC3Block.ID).isSome) ∧
     ((exC3State.handleOrphanBlock exC3Block).2 = some Err.knownOrphan →
       (exC3State.handleOrphanBlock exC3Block).1 = exC3State) ∧
     ((exC3State.handleOrphanBlock exC3Block).2 = some Err.unknownOrphan →
       ∃ mp, (exC3State.handleOrphanBlock exC3Block).1.missingParents
           exC3Block.parentBlockID = some mp ∧ mp exC3Block.ID = some exC3Block)) :=
  ⟨by decide, c7_handleOrphanBlock_spec exC3State exC3Block (by decide)⟩

/-! ## Notification bookkeeping (for claims C8 and C9) -/

theorem handleOrphanBlock_err_isSome (s : State) (b : Block) :
    (s.handleOrphanBlock b).2 ≠ none := by
  cases hmp : s.missingParents b.parentBlockID with
  | none =>
    rw [handleOrphanBlock_eq_new s b hmp]
    simp
  | some mp =>
    cases hc : mp b.ID with
    | some bb =>
      rw [handleOrphanBlock_eq_known s b mp bb hmp hc]
      simp
    | none =>
      rw [handleOrphanBlock_eq_insert s b mp hmp hc]
      simp

/-- A destiny check that reports no error has not touched the state. -/
theorem checkDestiny_none_state (s : State) (b : Block)
    (h : (s.checkDestiny b).2 = none) : (s.checkDestiny b).1 = s := by
  unfold State.checkDestiny at h ⊢
  by_cases hbad : s.badBlocks b.ID = true
  · rw [if_pos hbad] at h
    simp at h
  · rw [if_neg hbad] at h ⊢
    cases hbm : s.blockMap b.ID with
    | some n => rw [hbm] at h
    | none =>
      rw [hbm] at h
      cases hp : s.blockMap b.parentBlockID with
      | some n => rfl
      | none =>
        rw [hp] at h
        exact absurd h (handleOrphanBlock_err_isSome s b)

/-- A header validation that reports no error has not touched the state. -/
theorem validateHeader_none_state (C : Constants) (now : Timestamp) (s : State)
    (parent : BlockNode) (b : Block)
    (h : (s.validateHeader C now parent b).2 = none) :
    (s.validateHeader C now parent b).1 = s := by
  unfold State.validateHeader at h ⊢
  by_cases h1 : ¬ b.CheckTarget parent.target
  · rw [if_pos h1] at h
    simp at h
  · rw [if_neg h1] at h ⊢
    by_cases h2 : b.timestamp - now > C.futureThreshold
    · rw [if_pos h2] at h
      simp at h
    · rw [if_neg h2] at h ⊢
      by_cases h3 : parent.earliestChildTimestamp > b.timestamp
      · rw [if_pos h3] at h
        simp at h
      · rw [if_neg h3] at h ⊢
        by_cases h4 : b.merkleRoot ≠ TransactionMerkleRoot b.transactions
        · rw [if_pos h4] at h
          simp at h
        · rw [if_neg h4]

/-- What `forkBlockchain` publishes: nothing when no blocks were applied
(in particular after a failed replay), and exactly its accumulated
`ConsensusChange` — with a nonempty applied-blocks list — after a replay
that applied blocks. -/
theorem forkBlockchain_notifications (s : State) (fuel : Nat) (nn : BlockNode) :
    ((s.forkBlockchain fuel nn).appliedBlocks = [] ∧
     (s.forkBlockchain fuel nn).s.notifications = s.notifications) ∨
    ((s.forkBlockchain fuel nn).appliedBlocks ≠ [] ∧
     (s.forkBlockchain fuel nn).s.notifications =
       s.notifications ++ [(s.forkBlockchain fuel nn).cc] ∧
     (s.forkBlockchain fuel nn).cc.appliedBlocks ≠ []) := by
  simp only [State.forkBlockchain, State.cleanTransactionPool]
  cases hfp : findParentHistory s fuel nn [] with
  | none => exact Or.inl ⟨rfl, rfl⟩
  | some pr =>
    obtain ⟨ph, anc⟩ := pr
    simp only
    have hrwn : (rewindLoop fuel anc.block.ID s [] [] []).1.notifications =
        s.notifications :=
      (rewindLoop_treeEq fuel anc.block.ID s [] [] []).2.2.2.2
    have hfrn : (replayLoop fuel (rewindLoop fuel anc.block.ID s [] [] []).1 ph.reverse
        (rewindLoop fuel anc.block.ID s [] [] []).2.1 []
        (rewindLoop fuel anc.block.ID s [] [] []).2.2.2
        { invertedBlocks := (rewindLoop fuel anc.block.ID s [] [] []).2.2.1,
          appliedBlocks := [] } 0).s.notifications = s.notifications := by
      rw [(replayLoop_outerEq _ _ _ _ _ _ _ _).2.2, hrwn]
    by_cases hap : (replayLoop fuel (rewindLoop fuel anc.block.ID s [] [] []).1 ph.reverse
        (rewindLoop fuel anc.block.ID s [] [] []).2.1 []
        (rewindLoop fuel anc.block.ID s [] [] []).2.2.2
        { invertedBlocks := (rewindLoop fuel anc.block.ID s [] [] []).2.2.1,
          appliedBlocks := [] } 0).appliedBlocks = []
    · left
      rw [if_neg (by simpa using hap)]
      exact ⟨hap, hfrn⟩
    · right
      rw [if_pos (by simpa using hap)]
      refine ⟨hap, ?_, ?_⟩
      · show (_ : State).notifications ++ _ = _
        rw [hfrn]
      · have := replayLoop_cc_growth ph.reverse fuel
          (rewindLoop fuel anc.block.ID s [] [] []).1
          (rewindLoop fuel anc.block.ID s [] [] []).2.1 []
          (rewindLoop fuel anc.block.ID s [] [] []).2.2.2
          { invertedBlocks := (rewindLoop fuel anc.block.ID s [] [] []).2.2.1,
            appliedBlocks := [] } 0 (by simp)
        rcases this with h | h
        · exact absurd h hap
        · intro hnil
          rw [hnil, List.length_nil, Nat.le_zero, List.length_eq_zero] at h
          exact hap h

/-! ## Claims C2 and C8: the shadowed error of a failed reorg -/

/-- C2: evaluation of the code at the failing input.  Accepting
`exC2F2Block` wins `heavierFork` and the replay of the fork fails on
`exC2F1Block`'s invalid transaction: the fork subtree (both fork blocks,
the accepted tip among them) is invalidated and the canonical tip is
restored — yet `AcceptBlock` returns a nil error and does not abort,
because `forkBlockchain` assigns the integration error to a
`:=`-declared variable that shadows its named return
(src/consensus/blocks.go:381), so the error is never propagated. -/
theorem c2_failed_reorg_error_swallowed :
    (exC2State.AcceptBlock exC9Constants 10 1200 exC2F2Block).err = none ∧
    (exC2State.AcceptBlock exC9Constants 10 1200 exC2F2Block).fatal = false ∧
    (exC2State.AcceptBlock exC9Constants 10 1200 exC2F2Block).s.blockMap
      exC2F1Block.ID = none ∧
    (exC2State.AcceptBlock exC9Constants 10 1200 exC2F2Block).s.badBlocks
      exC2F1Block.ID = true ∧
    (exC2State.AcceptBlock exC9Constants 10 1200 exC2F2Block).s.blockMap
      exC2F2Block.ID = none ∧
    (exC2State.AcceptBlock exC9Constants 10 1200 exC2F2Block).s.badBlocks
      exC2F2Block.ID = true ∧
    (exC2State.AcceptBlock exC9Constants 10 1200 exC2F2Block).s.currentBlockID =
      exC2R1Block.ID := by
  decide

/-- C8: evaluation of the code at the failing input.  In that same failed
reorg the rolled-back `forkBlockchain` publishes nothing, but — because the
swallowed error never makes `AcceptBlock` return early — the call still
publishes its unconditional empty `ConsensusChange`, so a `ConsensusChange`
value IS delivered to subscribers during the failed-reorg call. -/
theorem c8_failed_reorg_notification :
    (exC2State.AcceptBlock exC9Constants 10 1200 exC2F2Block).s.blockMap
      exC2F1Block.ID = none ∧
    (exC2State.AcceptBlock exC9Constants 10 1200 exC2F2Block).s.notifications =
      exC2State.notifications ++ [{ invertedBlocks := [], appliedBlocks := [] }] := by
  decide

/-! ## Claim C9: the unconditional empty ConsensusChange -/

/-- C9: every `AcceptBlock` call that passes the destiny, header and size
checks (and does not hit the fatal rollback panic, on which the Go process
aborts) ends by publishing one additional empty `ConsensusChange`; a
successful reorg therefore produces two notifications in order — first the
populated one published inside `forkBlockchain`, then the empty one — and a
non-reorg accept produces exactly one, empty, notification. -/
theorem c9_acceptBlock_notifications (C : Constants) (fuel : Nat) (now : Timestamp)
    (s : State) (b : Block)
    (hd : (s.checkDestiny b).2 = none)
    (hh : (s.validateHeader C now ((s.blockMap b.parentBlockID).getD default) b).2 = none)
    (hsz : ¬ b.encodedSize > C.blockSizeLimit)
    (hnf : (s.AcceptBlock C fuel now b).fatal = false) :
    (∃ mid : List ConsensusChange,
      (s.AcceptBlock C fuel now b).s.notifications =
        s.notifications ++ mid ++ [{ invertedBlocks := [], appliedBlocks := [] }] ∧
      (mid = [] ∨ ∃ cc : ConsensusChange, mid = [cc] ∧ cc.appliedBlocks ≠ [])) ∧
    ((s.addBlockToTree C ((s.blockMap b.parentBlockID).getD default) b).1.heavierFork
        (s.addBlockToTree C ((s.blockMap b.parentBlockID).getD default) b).2 = false →
      (s.AcceptBlock C fuel now b).s.notifications =
        s.notifications ++ [{ invertedBlocks := [], appliedBlocks := [] }]) := by
  have hs0 : (s.checkDestiny b).1 = s := checkDestiny_none_state s b hd
  have hv1 : (s.validateHeader C now ((s.blockMap b.parentBlockID).getD default) b).1 = s :=
    validateHeader_none_state C now s _ b hh
  simp only [State.AcceptBlock, hd, hs0, hh, hv1, if_neg hsz] at hnf ⊢
  by_cases hfork : (s.addBlockToTree C ((s.blockMap b.parentBlockID).getD default) b).1.heavierFork
      (s.addBlockToTree C ((s.blockMap b.parentBlockID).getD default) b).2 = true
  · rw [if_pos hfork] at hnf ⊢
    by_cases hft : (((s.addBlockToTree C ((s.blockMap b.parentBlockID).getD default)
        b).1).forkBlockchain fuel
        ((s.addBlockToTree C ((s.blockMap b.parentBlockID).getD default) b).2)).fatal = true
    · rw [if_pos hft] at hnf
      simp at hnf
    · rw [if_neg hft]
      cases herr : (((s.addBlockToTree C ((s.blockMap b.parentBlockID).getD default)
          b).1).forkBlockchain fuel
          ((s.addBlockToTree C ((s.blockMap b.parentBlockID).getD default) b).2)).err with
      | some e =>
        rw [forkBlockchain_err_none] at herr
        cases herr
      | none =>
        simp only [State.notifySubscribers]
        have hfn := forkBlockchain_notifications
          (s.addBlockToTree C ((s.blockMap b.parentBlockID).getD default) b).1 fuel
          (s.addBlockToTree C ((s.blockMap b.parentBlockID).getD default) b).2
        have habt : ((s.addBlockToTree C ((s.blockMap b.parentBlockID).getD default)
            b).1).notifications = s.notifications := rfl
        constructor
        · rcases hfn with ⟨-, hn⟩ | ⟨-, hn, hcc⟩
          · refine ⟨[], ?_, Or.inl rfl⟩
            rw [hn, habt]
            simp only [List.append_nil]
            rfl
          · refine ⟨[_], ?_, Or.inr ⟨_, rfl, hcc⟩⟩
            rw [hn, habt]
            simp only [List.append_assoc]
            rfl
        · intro hcontra
          rw [hfork] at hcontra
          cases hcontra
  · rw [if_neg hfork]
    have habt : ((s.addBlockToTree C ((s.blockMap b.parentBlockID).getD default)
        b).1).notifications = s.notifications := rfl
    simp only [State.notifySubscribers]
    refine ⟨⟨[], ?_, Or.inl rfl⟩, fun _ => ?_⟩
    · rw [habt]
      simp only [List.append_nil]
      rfl
    · rw [habt]
      rfl

/-- C9, witness: a concrete non-reorg accept — the call passes all checks,
`heavierFork` is false, and exactly one empty `ConsensusChange` is
published. -/
theorem c9_witness :
    ((exC9State.checkDestiny exC9Block).2 = none ∧
     (exC9State.validateHeader exC9Constants 5
       ((exC9State.blockMap exC9Block.parentBlockID).getD default) exC9Block).2 = none ∧
     ¬ exC9Block.encodedSize > exC9Constants.blockSizeLimit ∧
     (exC9State.AcceptBlock exC9Constants 10 5 exC9Block).fatal = false) ∧
    ((∃ mid : List ConsensusChange,
      (exC9State.AcceptBlock exC9Constants 10 5 exC9Block).s.notifications =
        exC9State.notifications ++ mid ++ [{ invertedBlocks := [], appliedBlocks := [] }] ∧
      (mid = [] ∨ ∃ cc : ConsensusChange, mid = [cc] ∧ cc.appliedBlocks ≠ [])) ∧
     ((exC9State.addBlockToTree exC9Constants
        ((exC9State.blockMap exC9Block.parentBlockID).getD default) exC9Block).1.heavierFork
        (exC9State.addBlockToTree exC9Constants
          ((exC9State.blockMap exC9Block.parentBlockID).getD default) exC9Block).2 = false →
      (exC9State.AcceptBlock exC9Constants 10 5 exC9Block).s.notifications =
        exC9State.notifications ++ [{ invertedBlocks := [], appliedBlocks := [] }])) :=
  ⟨⟨by decide, by decide, by decide, by decide⟩,
   c9_acceptBlock_notifications exC9Constants 10 5 exC9State exC9Block
     (by decide) (by decide) (by decide) (by decide)⟩

/-! ## Claim C10: duplication of output diffs in the BlockDiff -/

/-- C10: on a successful `integrateBlock` the produced `BlockDiff`'s
`BlockChanges.OutputDiffs` is extended with the entire accumulated per-call
diff list — the transactions' output diffs (in the model contract
maintenance contributes no diffs) and the miner-subsidy diff — so every
transaction-level output diff appears twice in the `BlockDiff`: once inside
its `TransactionDiffs` entry and again inside `BlockChanges.OutputDiffs`. -/
theorem c10_integrateBlock_blockChanges_dup (s : State) (b : Block) (bd0 : BlockDiff)
    (h : (s.integrateBlock b bd0).err = none) :
    ∃ subsidyDiff : OutputDiff,
      (s.integrateBlock b bd0).diffs =
        (((s.integrateBlock b bd0).bd.transactionDiffs.drop
          bd0.transactionDiffs.length).map TransactionDiff.outputDiffs).flatten ++
          [subsidyDiff] ∧
      (s.integrateBlock b bd0).bd.blockChanges.outputDiffs =
        bd0.blockChanges.outputDiffs ++ (s.integrateBlock b bd0).diffs ∧
      ∀ td ∈ (s.integrateBlock b bd0).bd.transactionDiffs.drop
          bd0.transactionDiffs.length,
        ∀ d ∈ td.outputDiffs, d ∈ (s.integrateBlock b bd0).bd.blockChanges.outputDiffs := by
  obtain ⟨-, h2, -⟩ := integrateTxns_spec b.transactions s
  rw [integrateBlock_err_eq] at h
  simp only [State.integrateBlock, h]
  simp only [State.applyContractMaintenance, List.append_nil]
  refine ⟨⟨true, b.SubsidyID,
    ⟨(s.integrateTxns b.transactions).2.2.2.2.1 + 300000, b.minerAddress⟩⟩, ?_, trivial, ?_⟩
  · rw [List.drop_left, ← h2]
    rfl
  · intro td htd d hd
    rw [List.drop_left] at htd
    apply List.mem_append_right
    apply List.mem_append_left
    rw [h2]
    exact List.mem_flatten.mpr ⟨td.outputDiffs, List.mem_map_of_mem _ htd, hd⟩

/-- C10, witness: the duplication at a concrete successful block. -/
theorem c10_witness :
    (exC3State.integrateBlock exC10Block default).err = none ∧
    (∃ subsidyDiff : OutputDiff,
      (exC3State.integrateBlock exC10Block default).diffs =
        (((exC3State.integrateBlock exC10Block default).bd.transactionDiffs.drop
          (default : BlockDiff).transactionDiffs.length).map
            TransactionDiff.outputDiffs).flatten ++ [subsidyDiff] ∧
      (exC3State.integrateBlock exC10Block default).bd.blockChanges.outputDiffs =
        (default : BlockDiff).blockChanges.outputDiffs ++
          (exC3State.integrateBlock exC10Block default).diffs ∧
      ∀ td ∈ (exC3State.integrateBlock exC10Block default).bd.transactionDiffs.drop
          (default : BlockDiff).transactionDiffs.length,
        ∀ d ∈ td.outputDiffs,
          d ∈ (exC3State.integrateBlock exC10Block default).bd.blockChanges.outputDiffs) :=
  ⟨by decide, c10_integrateBlock_blockChanges_dup exC3State exC10Block default (by decide)⟩

end Sia
